import Mathlib

/-!
Verification of the libosmium core against its specification.

The development shallowly embeds the relevant parts of the source tree:

* `osmium/area/segment.hpp`                    (NodeRefSegment and to_left_of)
* `osmium/io/detail/opl_parser_functions.hpp`  (OPL escapes and integers)
* `osmium/io/detail/pbf_input_format.hpp`      (PBF blob framing)
* the ID-to-Location index family exercised by
  `test/t/index/test_id_to_location.cpp`

Machine integers are embedded as `Nat`/`Int`; bytes of an input line or of a
PBF stream are `List Nat` with values below 256, and the terminating NUL of a
C line corresponds to the end of the list.  Components of the repository that
are only declared or called from the sources (the Location ordering, the
index back-ends, the protobuf wire layer, the inter-thread queue) are
modelled from the specification; each such definition carries a doc comment
saying so.
-/

namespace Libosmium

/-- Modelled from the spec: `osmium::Location` (osmium/osm/location.hpp is not
under src/).  A pair of signed 32-bit integers; the undefined value has both
components equal to INT32_MIN; ordering is lexicographic on (x, y). -/
@[ext]
structure Location where
  x : Int
  y : Int
deriving DecidableEq

/-- Modelled from the spec: the distinguished undefined Location. -/
def Location.undefined : Location := ⟨-2147483648, -2147483648⟩

/-- Modelled from the spec: lexicographic strict order on Locations. -/
def locLt (a b : Location) : Bool :=
  decide (a.x < b.x ∨ (a.x = b.x ∧ a.y < b.y))

/-- Non-strict lexicographic order on Locations. -/
def locLe (a b : Location) : Bool :=
  locLt a b || decide (a = b)

/-- `osmium::NodeRef`: a 64-bit id together with a Location. -/
structure NodeRef where
  ref : Int
  loc : Location
deriving DecidableEq

/-- `osmium::area::NodeRefSegment` (segment.hpp lines 56-146): two NodeRefs,
a role string and a back-reference to the originating way (embedded as an
opaque index). -/
structure NodeRefSegment where
  first : NodeRef
  second : NodeRef
  role : String
  wayIdx : Nat
deriving DecidableEq

/-- The NodeRefSegment constructor (segment.hpp lines 81-89): swaps the two
NodeRefs when the second location is smaller than the first. -/
def mkNodeRefSegment (nr1 nr2 : NodeRef) (role : String) (w : Nat) : NodeRefSegment :=
  if locLt nr2.loc nr1.loc then
    ⟨nr2, nr1, role, w⟩
  else
    ⟨nr1, nr2, role, w⟩

/-- `NodeRefSegment::to_left_of` (segment.hpp lines 109-132).  `mm1`/`mm2`
embed `std::minmax(first, second, by y)`: the pair is swapped exactly when
the second location has the strictly smaller y.  All arithmetic is on `Int`,
matching the 64-bit signed arithmetic of the source for in-range coordinates. -/
def to_left_of (s : NodeRefSegment) (loc : Location) : Bool :=
  if s.first.loc = loc ∨ s.second.loc = loc then
    false
  else
    let mm1 := if s.second.loc.y < s.first.loc.y then s.second.loc else s.first.loc
    let mm2 := if s.second.loc.y < s.first.loc.y then s.first.loc else s.second.loc
    if mm1.y ≥ loc.y ∨ mm2.y < loc.y ∨ s.first.loc.x > loc.x then
      false
    else
      decide ((mm2.x - mm1.x) * (loc.y - mm1.y) - (mm2.y - mm1.y) * (loc.x - mm1.x) ≤ 0)

/-- The claim C2 as stated: with `(a, b)` the endpoints ordered by y, the
result is false if `a.y ≥ p.y` or `b.y < p.y` or `a.x > p.x`, else true iff
the cross product is ≤ 0. -/
def claim_to_left_of (s : NodeRefSegment) (p : Location) : Bool :=
  if p = s.first.loc ∨ p = s.second.loc then
    false
  else
    let a := if s.second.loc.y < s.first.loc.y then s.second.loc else s.first.loc
    let b := if s.second.loc.y < s.first.loc.y then s.first.loc else s.second.loc
    if a.y ≥ p.y ∨ b.y < p.y ∨ a.x > p.x then
      false
    else
      decide ((b.x - a.x) * (p.y - a.y) - (b.y - a.y) * (p.x - a.x) ≤ 0)

/-- The claim C2 amended: the third rejection test uses the x coordinate of
the segment's canonical `first` endpoint, not of the y-ordered endpoint `a`. -/
def amended_to_left_of (s : NodeRefSegment) (p : Location) : Bool :=
  if p = s.first.loc ∨ p = s.second.loc then
    false
  else
    let a := if s.second.loc.y < s.first.loc.y then s.second.loc else s.first.loc
    let b := if s.second.loc.y < s.first.loc.y then s.first.loc else s.second.loc
    if a.y ≥ p.y ∨ b.y < p.y ∨ s.first.loc.x > p.x then
      false
    else
      decide ((b.x - a.x) * (p.y - a.y) - (b.y - a.y) * (p.x - a.x) ≤ 0)

/-- `operator==` on NodeRefSegment (segment.hpp lines 149-151): equal iff
both endpoint locations are equal; ids, roles and way references are ignored. -/
def nrsEqual (l r : NodeRefSegment) : Bool :=
  decide (l.first.loc = r.first.loc) && decide (l.second.loc = r.second.loc)

/-- The concrete segment ((0,0)-(10,10)) of spec scenario 5. -/
def segDiag : NodeRefSegment :=
  mkNodeRefSegment ⟨1, ⟨0, 0⟩⟩ ⟨2, ⟨10, 10⟩⟩ "outer" 0

/-- A segment whose lexicographically first endpoint is not the endpoint of
smaller y: ((0,10)-(10,0)). -/
def segAnti : NodeRefSegment :=
  mkNodeRefSegment ⟨1, ⟨0, 10⟩⟩ ⟨2, ⟨10, 0⟩⟩ "outer" 0

/-! OPL parser functions (opl_parser_functions.hpp).  A line is a `List Nat`
of byte values; the end of the list plays the role of the terminating NUL. -/

/-- Hex digit decoding as in opl_parse_escaped (lines 163-171): 0-9, a-f,
A-F. -/
def hexVal (b : Nat) : Option Nat :=
  if 48 ≤ b ∧ b ≤ 57 then some (b - 48)
  else if 97 ≤ b ∧ b ≤ 102 then some (b - 97 + 10)
  else if 65 ≤ b ∧ b ≤ 70 then some (b - 65 + 10)
  else none

/-- Modelled from the spec: standard UTF-8 encoding of a Unicode scalar
value, as produced by utf8::utf32to8 from the third-party utf8.h header
(not part of this repository). -/
def utf8EncodeScalar (v : Nat) : List Nat :=
  if v < 128 then [v]
  else if v < 2048 then [192 + v / 64, 128 + v % 64]
  else if v < 65536 then [224 + v / 4096, 128 + v / 64 % 64, 128 + v % 64]
  else [240 + v / 262144, 128 + v / 4096 % 64, 128 + v / 64 % 64, 128 + v % 64]

/-- Modelled from the spec: utf8::utf32to8 (utf8.h, not part of this
repository) re-emits a valid Unicode scalar as UTF-8 and throws
utf8::invalid_code_point on surrogates and values above U+10FFFF. -/
def utf32to8 (v : Nat) : Except String (List Nat) :=
  if v < 55296 then .ok (utf8EncodeScalar v)
  else if v ≤ 57343 then .error "invalid code point"
  else if v ≤ 1114111 then .ok (utf8EncodeScalar v)
  else .error "invalid code point"

/-- The loop of opl_parse_escaped (lines 147-175).  The source counts loop
iterations with `while (++length <= max_length)` where max_length is 8; the
`fuel` argument is the number of iterations still allowed, so the wrapper
starts it at 8 and reaching 0 raises "hex escape too long".  The uint32
accumulator shift `value <<= 4` is embedded as multiplication modulo 2^32. -/
def opl_parse_escaped_go : Nat → Nat → List Nat → Except String (List Nat × List Nat)
  | 0, _, _ => .error "hex escape too long"
  | _ + 1, _, [] => .error "eol"
  | fuel + 1, value, b :: rest =>
    if b = 37 then
      match utf32to8 value with
      | .ok bs => .ok (bs, rest)
      | .error e => .error e
    else
      match hexVal b with
      | some d => opl_parse_escaped_go fuel (value * 16 % 4294967296 + d) rest
      | none => .error "not a hex char"

/-- opl_parse_escaped: parse the escape body following the opening '%'.
Returns the UTF-8 bytes to append and the unconsumed remainder of the line. -/
def opl_parse_escaped (s : List Nat) : Except String (List Nat × List Nat) :=
  opl_parse_escaped_go 8 0 s

/-- The loop of opl_parse_string (lines 185-199).  A string ends at the end
of the line or at a space, tab, comma or equals sign; '%' starts an escape.
Every iteration consumes at least one input byte, so fuel `s.length + 1`
never runs out. -/
def opl_parse_string_go : Nat → List Nat → List Nat → Except String (List Nat × List Nat)
  | 0, _, _ => .error "out of fuel"
  | _ + 1, [], acc => .ok (acc, [])
  | fuel + 1, b :: rest, acc =>
    if b = 32 ∨ b = 9 ∨ b = 44 ∨ b = 61 then .ok (acc, b :: rest)
    else if b = 37 then
      match opl_parse_escaped rest with
      | .ok (bs, r) => opl_parse_string_go fuel r (acc ++ bs)
      | .error e => .error e
    else opl_parse_string_go fuel rest (acc ++ [b])

/-- opl_parse_string: parse an unquoted OPL string, decoding escapes.
Returns the accumulated bytes and the rest of the line from the terminator. -/
def opl_parse_string (s : List Nat) : Except String (List Nat × List Nat) :=
  opl_parse_string_go (s.length + 1) s []

/-- The hex accumulator of opl_parse_escaped applied to a digit list. -/
def hexFold (v : Nat) (ds : List Nat) : Nat :=
  ds.foldl (fun a b => a * 16 % 4294967296 + (hexVal b).getD 0) v

/-- Arbitrary limit how long integers can get (line 202). -/
def max_int_len : Nat := 16

/-- The digit loop of opl_parse_int (lines 216-224): `n` starts at
max_int_len and the check `if (--n == 0)` rejects before consuming the
16th digit.  Returns the accumulated value, the final n, and the rest. -/
def opl_digits_go : List Nat → Nat → Int → Except String (Int × Nat × List Nat)
  | [], n, value => .ok (value, n, [])
  | b :: rest, n, value =>
    if 48 ≤ b ∧ b ≤ 57 then
      if n - 1 = 0 then .error "integer too long"
      else opl_digits_go rest (n - 1) (value * 10 + ((b : Int) - 48))
    else .ok (value, n, b :: rest)

/-- opl_parse_int (lines 204-242), with the target type T embedded by its
numeric range [tmin, tmax]. -/
def opl_parse_int (tmin tmax : Int) (s : List Nat) : Except String (Int × List Nat) :=
  match s with
  | [] => .error "expected integer"
  | c :: rest =>
    let s1 := if c = 45 then rest else c :: rest
    match opl_digits_go s1 max_int_len 0 with
    | .error e => .error e
    | .ok (value, n, r) =>
      if n = max_int_len then .error "expected integer"
      else if c = 45 then
        if -value < tmin then .error "integer too long" else .ok (-value, r)
      else
        if value > tmax then .error "integer too long" else .ok (value, r)

/-- The decimal accumulator of opl_parse_int applied to a digit list. -/
def digitsFold (v : Int) : List Nat → Int
  | [] => v
  | b :: tl => digitsFold (v * 10 + ((b : Int) - 48)) tl

/-- The numeric value of a list of decimal digit bytes. -/
def digitsVal (ds : List Nat) : Int :=
  digitsFold 0 ds

/-- True when a byte list is empty or does not start with a decimal digit:
the digit loop of opl_parse_int stops exactly there. -/
def headNonDigit : List Nat → Bool
  | [] => true
  | b :: _ => decide (¬(48 ≤ b ∧ b ≤ 57))

/-! The ID-to-Location index family.  The concrete back-ends
(osmium/index/map/sparse_mem_array.hpp, flex_mem.hpp) are not under src/;
only their common behaviour, exercised by test_id_to_location.cpp, is
specified, so the definitions below are modelled from the specification
(section 4.C items 7 and 10). -/

/-- Insert a pair into an id-sorted list, after all entries of the same id
(so a stable sort keeps the later `set` behind the earlier one). -/
def insertById (p : Nat × Location) : List (Nat × Location) → List (Nat × Location)
  | [] => [p]
  | q :: rest => if p.1 < q.1 then p :: q :: rest else q :: insertById p rest

/-- Modelled from the spec: `sort()` of the sparse array index orders the
entries by id, stable on duplicates. -/
def sortIdx (l : List (Nat × Location)) : List (Nat × Location) :=
  l.foldl (fun acc p => insertById p acc) []

/-- The location of the last entry carrying the given id, if any: what the
binary-search lookup of the sparse array retrieves after the stable sort
(last `set` wins). -/
def findLast (id : Nat) : List (Nat × Location) → Option Location
  | [] => none
  | p :: rest =>
    match findLast id rest with
    | some l => some l
    | none => if p.1 = id then some p.2 else none

/-- Modelled from the spec: `set(id, loc)` of the sparse array appends
without ordering. -/
def sparse_set (l : List (Nat × Location)) (id : Nat) (loc : Location) : List (Nat × Location) :=
  l ++ [(id, loc)]

/-- A sparse array index populated by a sequence of `set` calls. -/
def buildIndex (ops : List (Nat × Location)) : List (Nat × Location) :=
  ops.foldl (fun l p => sparse_set l p.1 p.2) []

/-- Modelled from the spec: `get_noexcept` returns the undefined Location
for absent ids. -/
def sparse_get_noexcept (l : List (Nat × Location)) (id : Nat) : Location :=
  match findLast id l with
  | some loc => loc
  | none => Location.undefined

/-- Modelled from the spec: `get` fails with not_found ("id N not found",
as in the test) for absent ids. -/
def sparse_get (l : List (Nat × Location)) (id : Nat) : Except String Location :=
  match findLast id l with
  | some loc => .ok loc
  | none => .error ("id " ++ toString id ++ " not found")

/-- The specification-side description of a sequence of `set` calls with
last-write-wins: the most recent pair carrying the id. -/
def lastSet (ops : List (Nat × Location)) (id : Nat) : Option Location :=
  (ops.reverse.find? (fun p => p.1 == id)).map (fun p => p.2)

/-- Modelled from the spec (4.C.10): the Flex index is a tagged variant of a
sparse array and a dense array; transitions are one-way sparse to dense. -/
inductive FlexMem where
  | sparse (entries : List (Nat × Location))
  | dense (arr : List Location)
deriving DecidableEq

/-- Modelled from the spec: `set` appends in sparse mode; in dense mode it
resizes the array so that index id is in range (absent cells hold the
undefined Location) and stores the value. -/
def FlexMem.set : FlexMem → Nat → Location → FlexMem
  | .sparse es, id, loc => .sparse (es ++ [(id, loc)])
  | .dense arr, id, loc =>
    .dense ((arr ++ List.replicate (id + 1 - arr.length) Location.undefined).set id loc)

/-- Modelled from the spec: lookup routes to the active back-end; the dense
array returns the undefined Location outside its range. -/
def FlexMem.get_noexcept : FlexMem → Nat → Location
  | .sparse es, id => sparse_get_noexcept es id
  | .dense arr, id => arr.getD id Location.undefined

/-- Modelled from the spec: `get` fails with not_found where `get_noexcept`
returns the undefined Location. -/
def FlexMem.get (m : FlexMem) (id : Nat) : Except String Location :=
  if m.get_noexcept id = Location.undefined then
    .error ("id " ++ toString id ++ " not found")
  else
    .ok (m.get_noexcept id)

/-- `is_dense()` exposes the current mode. -/
def FlexMem.is_dense : FlexMem → Bool
  | .sparse _ => false
  | .dense _ => true

/-- The largest id among the entries (0 when empty). -/
def maxId (es : List (Nat × Location)) : Nat :=
  es.foldl (fun m p => max m p.1) 0

/-- Modelled from the spec: `switch_to_dense()` sorts, allocates a dense
back-end sized to max id + 1, copies the values over and releases the
sparse entries. -/
def FlexMem.switch_to_dense : FlexMem → FlexMem
  | .dense arr => .dense arr
  | .sparse es =>
    .dense ((sortIdx es).foldl (fun arr p => arr.set p.1 p.2)
      (List.replicate (maxId es + 1) Location.undefined))

/-- A Flex index populated in its initial sparse mode by a sequence of
`set` calls. -/
def buildFlex (ops : List (Nat × Location)) : FlexMem :=
  ops.foldl (fun m p => m.set p.1 p.2) (.sparse [])

/-! The PBF blob framer (pbf_input_format.hpp).  The input byte queue is
collapsed into a single byte list: read_from_input_queue pulls chunks until
it has enough bytes and throws "truncated data (EOF encountered)" when the
queue yields the empty end-of-stream chunk, so at byte granularity a read of
n bytes succeeds iff n bytes remain.  Chunk boundaries only affect blocking,
not results, and the upstream reader sends the empty chunk exactly at the
end of the stream. -/

/-- Modelled from the spec: the BlobHeader size bound of 64 KiB
(osmium/io/detail/pbf.hpp is not under src/). -/
def max_blob_header_size : Nat := 64 * 1024

/-- Modelled from the spec: the blob size bound of 32 MiB. -/
def max_uncompressed_blob_size : Nat := 32 * 1024 * 1024

/-- The bytes of the C string "OSMHeader". -/
def OSMHeaderBytes : List Nat := [79, 83, 77, 72, 101, 97, 100, 101, 114]

/-- The bytes of the C string "OSMData". -/
def OSMDataBytes : List Nat := [79, 83, 77, 68, 97, 116, 97]

/-- read_from_input_queue (lines 97-114): take `size` bytes off the front
of the stream or fail with the truncation error. -/
def read_from_input_queue (size : Nat) (s : List Nat) : Except String (List Nat × List Nat) :=
  if s.length < size then .error "truncated data (EOF encountered)"
  else .ok (s.take size, s.drop size)

/-- Big-endian interpretation of the four length-prefix bytes, as the
source's `ntohl` of the raw 32-bit load produces on a little-endian host. -/
def ntohl (l : List Nat) : Nat :=
  l.getD 0 0 * 16777216 + l.getD 1 0 * 65536 + l.getD 2 0 * 256 + l.getD 3 0

/-- The 4-byte big-endian encoding of a length below 2^32. -/
def be32 (n : Nat) : List Nat :=
  [n / 16777216 % 256, n / 65536 % 256, n / 256 % 256, n % 256]

/-- read_blob_header_size_from_file (lines 120-136): read the 4-byte
length prefix; a pbf_error from that read (EOF inside the prefix) is caught
and turned into the EOF marker 0; a size above max_blob_header_size fails. -/
def read_blob_header_size_from_file (s : List Nat) : Except String (Nat × List Nat) :=
  match read_from_input_queue 4 s with
  | .error _ => .ok (0, s)
  | .ok (bytes, rest) =>
    if ntohl bytes > max_blob_header_size then
      .error "invalid BlobHeader size (> max_blob_header_size)"
    else
      .ok (ntohl bytes, rest)

/-- Modelled from the spec: base-128 varint decoding of the protobuf wire
format (protozero is not part of this repository; spec section 6 gives the
message layout). -/
def varintDecode : List Nat → Option (Nat × List Nat)
  | [] => none
  | b :: rest =>
    if b < 128 then some (b, rest)
    else
      match varintDecode rest with
      | none => none
      | some (v, r) => some ((b - 128) + 128 * v, r)

/-- Modelled from the spec: base-128 varint encoding, valid for values
below 2^35 (covering every size this development uses). -/
def encodeVarint (n : Nat) : List Nat :=
  if n < 128 then [n]
  else if n < 16384 then [n % 128 + 128, n / 128]
  else if n < 2097152 then [n % 128 + 128, n / 128 % 128 + 128, n / 16384]
  else if n < 268435456 then
    [n % 128 + 128, n / 128 % 128 + 128, n / 16384 % 128 + 128, n / 2097152]
  else
    [n % 128 + 128, n / 128 % 128 + 128, n / 16384 % 128 + 128,
     n / 2097152 % 128 + 128, n / 268435456]

/-- The varint value of BlobHeader.datasize as the source observes it: the
protozero get_int32 truncates to a signed 32-bit value which is then widened
to size_t. -/
def int32_to_size_t (v : Nat) : Nat :=
  if v % 4294967296 < 2147483648 then v % 4294967296
  else 18446744073709551616 - 4294967296 + v % 4294967296

/-- The type comparison of decode_blob_header (line 163):
`strncmp(expected_type, stored, stored_length) == 0` where expected_type is
a NUL-terminated C string and stored_length is the length of the stored
type.  Any stored type that is a byte prefix of the expected type compares
equal. -/
def typeMatches : List Nat → List Nat → Bool
  | _, [] => true
  | [], t :: _ => decide (t = 0)
  | e :: es, t :: ts =>
    if t = e then (if t = 0 then true else typeMatches es ts) else false

/-- Modelled from the spec: the protobuf field scan of the BlobHeader
message {1: string type, 3: int32 datasize} performed through protozero
(not part of this repository): iterate key/value pairs, remember the last
type and datasize fields, skip unknown fields.  Every iteration consumes at
least one byte, so fuel `bytes.length + 1` never runs out; `none` stands
for the protozero decoding exception on malformed bytes. -/
def scanBlobHeader : Nat → List Nat → List Nat → Nat → Option (List Nat × Nat)
  | 0, _, _, _ => none
  | _ + 1, [], typ, ds => some (typ, ds)
  | fuel + 1, b :: bs, typ, ds =>
    match varintDecode (b :: bs) with
    | none => none
    | some (key, r1) =>
      if key / 8 = 1 ∧ key % 8 = 2 then
        match varintDecode r1 with
        | none => none
        | some (len, r2) =>
          if r2.length < len then none
          else scanBlobHeader fuel (r2.drop len) (r2.take len) ds
      else if key / 8 = 3 ∧ key % 8 = 0 then
        match varintDecode r1 with
        | none => none
        | some (v, r2) => scanBlobHeader fuel r2 typ (int32_to_size_t v)
      else if key % 8 = 0 then
        match varintDecode r1 with
        | none => none
        | some (_, r2) => scanBlobHeader fuel r2 typ ds
      else if key % 8 = 2 then
        match varintDecode r1 with
        | none => none
        | some (len, r2) =>
          if r2.length < len then none
          else scanBlobHeader fuel (r2.drop len) typ ds
      else if key % 8 = 1 then
        if r1.length < 8 then none else scanBlobHeader fuel (r1.drop 8) typ ds
      else if key % 8 = 5 then
        if r1.length < 4 then none else scanBlobHeader fuel (r1.drop 4) typ ds
      else none

/-- decode_blob_header (lines 142-168): scan the message (missing fields
leave the empty type and datasize 0), fail when datasize is missing or
zero, fail when the stored type does not strncmp-match the expected type,
else return the datasize. -/
def decode_blob_header (bytes expected : List Nat) : Except String Nat :=
  match scanBlobHeader (bytes.length + 1) bytes [] 0 with
  | none => .error "protozero exception"
  | some (typ, ds) =>
    if ds = 0 then
      .error "PBF format error: BlobHeader.datasize missing or zero."
    else if typeMatches expected typ then
      .ok ds
    else
      .error "blob does not have expected type (OSMHeader in first blob, OSMData in following blobs)"

/-- check_type_and_get_blob_size (lines 170-181): 0 signals EOF. -/
def check_type_and_get_blob_size (expected : List Nat) (s : List Nat) :
    Except String (Nat × List Nat) :=
  match read_blob_header_size_from_file s with
  | .error e => .error e
  | .ok (size, s1) =>
    if size = 0 then .ok (0, s1)
    else
      match read_from_input_queue size s1 with
      | .error e => .error e
      | .ok (blob_header, s2) =>
        match decode_blob_header blob_header expected with
        | .error e => .error e
        | .ok ds => .ok (ds, s2)

/-- Modelled from the spec (section 6): the protozero scan of the Blob
message {1: bytes raw, 2: int32 raw_size, 3: bytes zlib_data} that
decode_header performs on the first blob's payload.  Returns the last raw
data field of a structurally valid message; `none` stands for the protozero
decoding exception on malformed bytes (a truncated field, an unknown wire
type, or the invalid field number 0, which protozero rejects).  Every
iteration consumes at least one byte, so fuel `bytes.length + 1` never runs
out. -/
def scanBlobMsg : Nat → List Nat → Option (List Nat) → Option (Option (List Nat))
  | 0, _, _ => none
  | _ + 1, [], raw => some raw
  | fuel + 1, b :: bs, raw =>
    match varintDecode (b :: bs) with
    | none => none
    | some (key, r1) =>
      if key / 8 = 0 then none
      else if key / 8 = 1 ∧ key % 8 = 2 then
        match varintDecode r1 with
        | none => none
        | some (len, r2) =>
          if r2.length < len then none
          else scanBlobMsg fuel (r2.drop len) (some (r2.take len))
      else if key % 8 = 0 then
        match varintDecode r1 with
        | none => none
        | some (_, r2) => scanBlobMsg fuel r2 raw
      else if key % 8 = 2 then
        match varintDecode r1 with
        | none => none
        | some (len, r2) =>
          if r2.length < len then none
          else scanBlobMsg fuel (r2.drop len) raw
      else if key % 8 = 1 then
        if r1.length < 8 then none else scanBlobMsg fuel (r1.drop 8) raw
      else if key % 8 = 5 then
        if r1.length < 4 then none else scanBlobMsg fuel (r1.drop 4) raw
      else none

/-- Modelled from the spec (sections 4.E, 6, 7): decode_header
(pbf_decoder.hpp, not under src/) protobuf-decodes the first blob's payload
into the Header.  A malformed Blob message is a protobuf-decode failure,
hence a pbf_error (section 7); a Blob carrying no data also fails.  Of the
genuinely decodable payloads this model conservatively accepts exactly
those whose raw data is empty — the default HeaderBlock, which decodes to
the default Header — and maps every other payload to an error: zlib
decompression and the HeaderBlock fields are outside the model's scope, so
no payload the real decoder rejects is ever accepted.  The theorems below
only need that some payloads decode and that failures propagate. -/
def decode_header (payload : List Nat) : Except String Unit :=
  match scanBlobMsg (payload.length + 1) payload none with
  | none => .error "exception in protobuf decoding of Blob"
  | some none => .error "PBF blob contains no data"
  | some (some raw) =>
    if raw = [] then .ok ()
    else .error "HeaderBlock decoding outside the scope of this model"

/-- parse_header_blob (lines 188-193): the first blob must check against
"OSMHeader"; its payload goes to decode_header (pbf_decoder.hpp, not under
src/), whose result is delivered through the header promise, not the
buffer queue.  A decode_header failure propagates out of the framer task:
per spec section 7 it poisons the header future and the consumer's next
read() raises it, with no buffers delivered. -/
def parse_header_blob (s : List Nat) : Except String (List Nat) :=
  match check_type_and_get_blob_size OSMHeaderBytes s with
  | .error e => .error e
  | .ok (size, s1) =>
    match read_from_input_queue size s1 with
    | .error e => .error e
    | .ok (payload, s2) =>
      match decode_header payload with
      | .error e => .error e
      | .ok _ => .ok s2

/-- The OSMData loop of PBFParser::operator() (lines 243-257): each
iteration frames one data blob and pushes its payload (the future of its
decoded buffer) onto the queue; size 0 ends the loop normally (the empty
sentinel buffer follows); any error terminates the framer task with that
error.  Every iteration consumes at least the 4 prefix bytes, so fuel
`s.length + 1` never runs out. -/
def framer_loop : Nat → List Nat → List (List Nat) →
    List (List Nat) × Except String Unit
  | 0, _, acc => (acc, .error "out of fuel")
  | fuel + 1, s, acc =>
    match check_type_and_get_blob_size OSMDataBytes s with
    | .error e => (acc, .error e)
    | .ok (size, s1) =>
      if size = 0 then (acc, .ok ())
      else
        match read_from_input_queue size s1 with
        | .error e => (acc, .error e)
        | .ok (body, s2) =>
          if body.length > max_uncompressed_blob_size then
            (acc, .error ("invalid blob size: " ++ toString body.length))
          else
            framer_loop fuel s2 (acc ++ [body])

/-- The framer loop at its canonical fuel. -/
def framerGo (s : List Nat) (acc : List (List Nat)) :
    List (List Nat) × Except String Unit :=
  framer_loop (s.length + 1) s acc

/-- PBFParser::operator() (lines 234-266) as the consumer observes it
(read_types = all entities).  The first component is the ordered sequence
of data blob payloads pushed onto the queue; the second is what the
consumer sees after them: `.ok ()` for the empty sentinel buffer (normal
EOF) or the framer's error.  Modelled from the spec (section 5): the
inter-thread queue and check_for_exception (osmium/thread, not under src/)
deliver a framer failure to the consumer's next read() in place of EOF. -/
def runFramer (s : List Nat) : List (List Nat) × Except String Unit :=
  match parse_header_blob s with
  | .error e => ([], .error e)
  | .ok s1 => framerGo s1 []

/-- Modelled from the spec (section 6): the wire encoding of a BlobHeader
with a type string and a datasize. -/
def encodeBlobHeader (typ : List Nat) (ds : Nat) : List Nat :=
  10 :: (encodeVarint typ.length ++ typ ++ 24 :: encodeVarint ds)

/-- A BlobHeader encoding carrying only the type field (datasize missing). -/
def encodeBlobHeaderTypeOnly (typ : List Nat) : List Nat :=
  10 :: (encodeVarint typ.length ++ typ)

/-- A complete wire blob: length prefix, BlobHeader, body. -/
def mkBlob (typ : List Nat) (ds : Nat) (body : List Nat) : List Nat :=
  be32 (encodeBlobHeader typ ds).length ++ encodeBlobHeader typ ds ++ body

/-- A well-formed OSMData blob for a body. -/
def mkDataBlob (body : List Nat) : List Nat :=
  mkBlob OSMDataBytes body.length body

/-- A well-formed OSMHeader blob for a header payload. -/
def mkHeaderBlob (body : List Nat) : List Nat :=
  mkBlob OSMHeaderBytes body.length body

/-- Concatenation of a list of byte lists. -/
def concatAll : List (List Nat) → List Nat
  | [] => []
  | l :: ls => l ++ concatAll ls

theorem locLe_of_lt (a b : Location) (h : locLt a b = true) : locLe a b = true := by
  simp only [locLe, Bool.or_eq_true]
  exact Or.inl h

theorem locLe_of_not_lt (a b : Location) (h : ¬ locLt b a = true) : locLe a b = true := by
  simp only [locLt, decide_eq_true_eq, not_or, not_and, not_lt] at h
  obtain ⟨h1, h2⟩ := h
  simp only [locLe, locLt, Bool.or_eq_true, decide_eq_true_eq]
  rcases lt_trichotomy a.x b.x with hx | hx | hx
  · exact Or.inl (Or.inl hx)
  · rcases lt_trichotomy a.y b.y with hy | hy | hy
    · exact Or.inl (Or.inr ⟨hx, hy⟩)
    · exact Or.inr (Location.ext hx hy)
    · exact absurd hy (not_lt.2 (h2 hx.symm))
  · exact absurd hx (not_lt.2 h1)

/-- C9: the constructed segment is canonically ordered. -/
theorem C9_segment_canonical :
    ∀ (nr1 nr2 : NodeRef) (role : String) (w : Nat) (a b : NodeRefSegment),
      locLe (mkNodeRefSegment nr1 nr2 role w).first.loc
            (mkNodeRefSegment nr1 nr2 role w).second.loc = true
      ∧ (nrsEqual a b = true ↔
          (a.first.loc = b.first.loc ∧ a.second.loc = b.second.loc)) := by
  intro nr1 nr2 role w a b
  constructor
  · unfold mkNodeRefSegment
    split_ifs with h
    · exact locLe_of_lt _ _ h
    · exact locLe_of_not_lt _ _ h
  · simp only [nrsEqual, Bool.and_eq_true, decide_eq_true_eq]

/-- C2 as stated fails: on the segment ((0,10)-(10,0)) and the point (5,5)
the code returns true while the claimed predicate returns false (the claim
rejects because the y-ordered endpoint a = (10,0) has a.x = 10 > 5, but the
code only tests the canonical first endpoint, whose x is 0). -/
theorem C2_to_left_of_counterexample :
    to_left_of segAnti ⟨5, 5⟩ = true ∧ claim_to_left_of segAnti ⟨5, 5⟩ = false := by
  constructor <;> rfl

/-- C2 amended: `to_left_of` agrees everywhere with the spec predicate whose
third rejection test uses the canonical first endpoint's x coordinate. -/
theorem C2_to_left_of_amended :
    ∀ (s : NodeRefSegment) (p : Location),
      to_left_of s p = amended_to_left_of s p := by
  intro s p
  simp only [to_left_of, amended_to_left_of]
  by_cases h1 : s.first.loc = p ∨ s.second.loc = p
  · have h1' : p = s.first.loc ∨ p = s.second.loc := by
      rcases h1 with h | h
      · exact Or.inl h.symm
      · exact Or.inr h.symm
    rw [if_pos h1, if_pos h1']
  · have h1' : ¬(p = s.first.loc ∨ p = s.second.loc) := by
      intro hc
      rcases hc with h | h
      · exact h1 (Or.inl h.symm)
      · exact h1 (Or.inr h.symm)
    rw [if_neg h1, if_neg h1']

/-- C3 as stated fails: on the segment ((0,0)-(10,10)) the query
to_left_of((5,5)) returns true, not false (the point lies on the segment and
the cross product 0 satisfies the ≤ 0 test). -/
theorem C3_segment_queries_counterexample :
    to_left_of segDiag ⟨5, 5⟩ = true := by
  rfl

/-- C3 amended: for the segment ((0,0)-(10,10)), to_left_of((5,5)) returns
true, to_left_of((5,6)) returns false, and to_left_of((-1,5)) returns false. -/
theorem C3_segment_queries_amended :
    to_left_of segDiag ⟨5, 5⟩ = true
    ∧ to_left_of segDiag ⟨5, 6⟩ = false
    ∧ to_left_of segDiag ⟨-1, 5⟩ = false := by
  refine ⟨rfl, rfl, rfl⟩

theorem escaped_go_digits :
    ∀ (ds : List Nat) (fuel v : Nat) (rest : List Nat),
      (∀ b ∈ ds, (hexVal b).isSome = true) → ds.length < fuel →
      opl_parse_escaped_go fuel v (ds ++ 37 :: rest)
        = match utf32to8 (hexFold v ds) with
          | .ok bs => .ok (bs, rest)
          | .error e => .error e := by
  intro ds
  induction ds with
  | nil =>
    intro fuel v rest _ hlen
    cases fuel with
    | zero => omega
    | succ f =>
      simp [opl_parse_escaped_go, hexFold]
  | cons b tl ih =>
    intro fuel v rest hds hlen
    obtain ⟨d, hd⟩ := Option.isSome_iff_exists.1 (hds b (List.mem_cons_self b tl))
    have hb37 : ¬ b = 37 := by
      intro hc
      rw [hc] at hd
      simp [hexVal] at hd
    cases fuel with
    | zero => omega
    | succ f =>
      have step :
          opl_parse_escaped_go (f + 1) v ((b :: tl) ++ 37 :: rest)
            = opl_parse_escaped_go f (v * 16 % 4294967296 + d) (tl ++ 37 :: rest) := by
        simp only [List.cons_append, opl_parse_escaped_go, if_neg hb37, hd]
        rfl
      rw [step, ih f _ rest (fun x hx => hds x (List.mem_cons_of_mem b hx)) (by
        simp only [List.length_cons] at hlen
        omega)]
      have hfold : hexFold v (b :: tl) = hexFold (v * 16 % 4294967296 + d) tl := by
        simp [hexFold, hd]
      rw [hfold]

theorem escaped_go_nonhex :
    ∀ (ds : List Nat) (fuel v c : Nat) (rest : List Nat),
      (∀ b ∈ ds, (hexVal b).isSome = true) → ds.length < fuel →
      hexVal c = none → ¬ c = 37 →
      opl_parse_escaped_go fuel v (ds ++ c :: rest) = .error "not a hex char" := by
  intro ds
  induction ds with
  | nil =>
    intro fuel v c rest _ hlen hc hc37
    cases fuel with
    | zero => omega
    | succ f =>
      simp [opl_parse_escaped_go, hc, hc37]
  | cons b tl ih =>
    intro fuel v c rest hds hlen hc hc37
    obtain ⟨d, hd⟩ := Option.isSome_iff_exists.1 (hds b (List.mem_cons_self b tl))
    have hb37 : ¬ b = 37 := by
      intro hcc
      rw [hcc] at hd
      simp [hexVal] at hd
    cases fuel with
    | zero => omega
    | succ f =>
      have step :
          opl_parse_escaped_go (f + 1) v ((b :: tl) ++ c :: rest)
            = opl_parse_escaped_go f (v * 16 % 4294967296 + d) (tl ++ c :: rest) := by
        simp only [List.cons_append, opl_parse_escaped_go, if_neg hb37, hd]
        rfl
      rw [step]
      exact ih f _ c rest (fun x hx => hds x (List.mem_cons_of_mem b hx)) (by
        simp only [List.length_cons] at hlen
        omega) hc hc37

theorem escaped_go_eol :
    ∀ (ds : List Nat) (fuel v : Nat),
      (∀ b ∈ ds, (hexVal b).isSome = true) → ds.length < fuel →
      opl_parse_escaped_go fuel v ds = .error "eol" := by
  intro ds
  induction ds with
  | nil =>
    intro fuel v _ hlen
    cases fuel with
    | zero => omega
    | succ f => rfl
  | cons b tl ih =>
    intro fuel v hds hlen
    obtain ⟨d, hd⟩ := Option.isSome_iff_exists.1 (hds b (List.mem_cons_self b tl))
    have hb37 : ¬ b = 37 := by
      intro hcc
      rw [hcc] at hd
      simp [hexVal] at hd
    cases fuel with
    | zero => omega
    | succ f =>
      have step :
          opl_parse_escaped_go (f + 1) v (b :: tl)
            = opl_parse_escaped_go f (v * 16 % 4294967296 + d) tl := by
        simp only [opl_parse_escaped_go, if_neg hb37, hd]
      rw [step]
      exact ih f _ (fun x hx => hds x (List.mem_cons_of_mem b hx)) (by
        simp only [List.length_cons] at hlen
        omega)

/-- C4 as stated fails: the escape %00000041% carries 8 hexadecimal digits
and a value (U+0041) that is a valid Unicode scalar, yet the parser raises
"hex escape too long" because the iteration counter of the source loop only
admits 7 digit iterations before the closing percent sign. -/
theorem C4_escape_counterexample :
    opl_parse_escaped [48, 48, 48, 48, 48, 48, 52, 49, 37] = .error "hex escape too long" := by
  rfl

/-- C4 amended: an escape of 1 to 7 hex digits whose value is a Unicode
scalar is accepted (also by the string parser) and appends that scalar
re-encoded as UTF-8; a non-hex non-percent byte raises "not a hex char" and
end of line before the closing percent raises "eol"; escapes of 8 or more
digits raise "hex escape too long" (see the counterexample). -/
theorem C4_escape_amended :
    ∀ (ds : List Nat) (c : Nat) (rest : List Nat),
      (∀ b ∈ ds, (hexVal b).isSome = true) →
      ds.length ≤ 7 →
      (hexFold 0 ds < 55296 ∨ (57343 < hexFold 0 ds ∧ hexFold 0 ds ≤ 1114111)) →
      hexVal c = none → ¬ c = 37 →
      opl_parse_escaped (ds ++ 37 :: rest) = .ok (utf8EncodeScalar (hexFold 0 ds), rest)
      ∧ opl_parse_string (37 :: ds ++ [37]) = .ok (utf8EncodeScalar (hexFold 0 ds), [])
      ∧ opl_parse_escaped (ds ++ c :: rest) = .error "not a hex char"
      ∧ opl_parse_escaped ds = .error "eol" := by
  intro ds c rest hds hlen hval hc hc37
  have hvalid : utf32to8 (hexFold 0 ds) = .ok (utf8EncodeScalar (hexFold 0 ds)) := by
    rcases hval with h | ⟨h1, h2⟩
    · simp only [utf32to8, if_pos h]
    · simp only [utf32to8]
      rw [if_neg (by omega), if_neg (by omega), if_pos h2]
  have hmain : ∀ r : List Nat,
      opl_parse_escaped (ds ++ 37 :: r) = .ok (utf8EncodeScalar (hexFold 0 ds), r) := by
    intro r
    unfold opl_parse_escaped
    rw [escaped_go_digits ds 8 0 r hds (by omega), hvalid]
  refine ⟨hmain rest, ?_, ?_, ?_⟩
  · simp only [opl_parse_string, List.cons_append]
    have h1 : (37 :: (ds ++ [37])).length + 1 = ((ds ++ [37]).length + 1) + 1 := by
      simp
    rw [h1]
    have hesc : opl_parse_escaped (ds ++ [37]) = .ok (utf8EncodeScalar (hexFold 0 ds), []) :=
      hmain []
    have h2 :
        opl_parse_string_go (((ds ++ [37]).length + 1) + 1) (37 :: (ds ++ [37])) []
          = opl_parse_string_go ((ds ++ [37]).length + 1) [] ([] ++ utf8EncodeScalar (hexFold 0 ds)) := by
      simp only [opl_parse_string_go, hesc]
      norm_num
    rw [h2]
    simp [opl_parse_string_go]
  · unfold opl_parse_escaped
    exact escaped_go_nonhex ds 8 0 c rest hds (by omega) hc hc37
  · unfold opl_parse_escaped
    exact escaped_go_eol ds 8 0 hds (by omega)

/-- Witness for C4: the two-digit escape %41% decodes to the byte 0x41. -/
theorem C4_escape_witness :
    opl_parse_escaped ([52, 49] ++ 37 :: []) = .ok (utf8EncodeScalar (hexFold 0 [52, 49]), [])
    ∧ opl_parse_string (37 :: [52, 49] ++ [37]) = .ok (utf8EncodeScalar (hexFold 0 [52, 49]), [])
    ∧ opl_parse_escaped ([52, 49] ++ 103 :: []) = .error "not a hex char"
    ∧ opl_parse_escaped [52, 49] = .error "eol" :=
  C4_escape_amended [52, 49] 103 [] (by decide) (by decide) (by decide) (by decide) (by decide)

theorem digits_go_ok :
    ∀ (ds rest : List Nat) (n : Nat) (v : Int),
      (∀ b ∈ ds, 48 ≤ b ∧ b ≤ 57) → ds.length < n → headNonDigit rest = true →
      opl_digits_go (ds ++ rest) n v
        = .ok (digitsFold v ds, n - ds.length, rest) := by
  intro ds
  induction ds with
  | nil =>
    intro rest n v _ _ hrest
    cases rest with
    | nil => simp [opl_digits_go, digitsFold]
    | cons b tl =>
      simp only [headNonDigit, decide_eq_true_eq] at hrest
      simp [opl_digits_go, hrest, digitsFold]
  | cons b tl ih =>
    intro rest n v hds hlen hrest
    have hb := hds b (List.mem_cons_self b tl)
    simp only [List.length_cons] at hlen
    have step :
        opl_digits_go ((b :: tl) ++ rest) n v
          = opl_digits_go (tl ++ rest) (n - 1) (v * 10 + ((b : Int) - 48)) := by
      simp only [List.cons_append, opl_digits_go, if_pos hb]
      rw [if_neg (by omega)]
      rfl
    rw [step, ih rest (n - 1) _ (fun x hx => hds x (List.mem_cons_of_mem b hx)) (by omega) hrest]
    have harith : n - 1 - tl.length = n - (b :: tl).length := by
      simp only [List.length_cons]
      omega
    rw [harith]
    rfl

theorem digits_go_long :
    ∀ (ds : List Nat) (n : Nat) (v : Int),
      (∀ b ∈ ds, 48 ≤ b ∧ b ≤ 57) → 1 ≤ n → n ≤ ds.length →
      opl_digits_go ds n v = .error "integer too long" := by
  intro ds
  induction ds with
  | nil =>
    intro n v _ h1 h2
    simp only [List.length_nil] at h2
    omega
  | cons b tl ih =>
    intro n v hds h1 h2
    have hb := hds b (List.mem_cons_self b tl)
    simp only [List.length_cons] at h2
    by_cases hn : n - 1 = 0
    · simp [opl_digits_go, hb, hn]
    · have step :
          opl_digits_go (b :: tl) n v
            = opl_digits_go tl (n - 1) (v * 10 + ((b : Int) - 48)) := by
        simp only [opl_digits_go, if_pos hb]
        rw [if_neg hn]
      rw [step]
      exact ih (n - 1) _ (fun x hx => hds x (List.mem_cons_of_mem b hx)) (by omega) (by omega)

/-- C5 as stated fails: the 16-digit literal 1000000000000000 has a value
that fits a 64-bit signed integer, yet opl_parse_int raises "integer too
long": the check `if (--n == 0)` fires when the 16th digit is reached, so
only 15 digits are ever accepted. -/
theorem C5_int_counterexample :
    opl_parse_int (-9223372036854775808) 9223372036854775807
        [49, 48, 48, 48, 48, 48, 48, 48, 48, 48, 48, 48, 48, 48, 48, 48]
      = .error "integer too long" := by
  rfl

/-- C5 amended: decimal literals of at most 15 digits whose value fits the
target range parse to that value (with optional leading minus); literals of
16 or more digits raise opl_error ("integer too long") even when their value
is in range, as do in-range-length literals whose value exceeds the target
range; a field with no digits raises "expected integer". -/
theorem C5_int_amended :
    ∀ (tmin tmax : Int) (ds dsBig dsOver rest : List Nat) (c : Nat),
      (∀ b ∈ ds, 48 ≤ b ∧ b ≤ 57) → 1 ≤ ds.length → ds.length ≤ 15 →
      (∀ b ∈ dsBig, 48 ≤ b ∧ b ≤ 57) → 1 ≤ dsBig.length → dsBig.length ≤ 15 →
      (∀ b ∈ dsOver, 48 ≤ b ∧ b ≤ 57) → 16 ≤ dsOver.length →
      headNonDigit rest = true →
      ¬(48 ≤ c ∧ c ≤ 57) → ¬ c = 45 →
      (digitsVal ds ≤ tmax →
        opl_parse_int tmin tmax (ds ++ rest) = .ok (digitsVal ds, rest))
      ∧ (tmin ≤ -(digitsVal ds) →
        opl_parse_int tmin tmax (45 :: ds ++ rest) = .ok (-(digitsVal ds), rest))
      ∧ opl_parse_int tmin tmax dsOver = .error "integer too long"
      ∧ (digitsVal dsBig > tmax →
        opl_parse_int tmin tmax (dsBig ++ rest) = .error "integer too long")
      ∧ opl_parse_int tmin tmax [] = .error "expected integer"
      ∧ opl_parse_int tmin tmax (c :: rest) = .error "expected integer" := by
  intro tmin tmax ds dsBig dsOver rest c
  intro hds hds1 hds15 hbig hbig1 hbig15 hover hover16 hrest hcnd hc45
  have h16 : ∀ m : Nat, m ≤ 15 → 1 ≤ m → ¬(max_int_len - m = max_int_len) := by
    intro m h1 h2
    simp only [max_int_len]
    omega
  refine ⟨fun hmax => ?_, fun hmin => ?_, ?_, fun hbigmax => ?_, rfl, ?_⟩
  · simp only [digitsVal] at hmax ⊢
    cases ds with
    | nil => simp at hds1
    | cons d0 dtl =>
      have hd0 := hds d0 (List.mem_cons_self d0 dtl)
      have hd45 : ¬ d0 = 45 := by omega
      have hgo := digits_go_ok (d0 :: dtl) rest max_int_len 0 hds (by
        simp only [max_int_len, List.length_cons] at hds15 ⊢
        omega) hrest
      simp only [List.cons_append] at hgo ⊢
      simp only [List.length_cons] at hds15
      have hne : ¬ (max_int_len - (dtl.length + 1) = max_int_len) := by
        simp only [max_int_len]
        omega
      simp [opl_parse_int, hd45, hgo, hne, not_lt.2 hmax]
  · simp only [digitsVal] at hmin ⊢
    have hgo := digits_go_ok ds rest max_int_len 0 hds (by
      simp only [max_int_len]
      omega) hrest
    simp only [List.cons_append]
    simp [opl_parse_int, hgo, h16 _ hds15 hds1, not_lt.2 hmin]
  · cases dsOver with
    | nil => simp at hover16
    | cons d0 dtl =>
      have hd0 := hover d0 (List.mem_cons_self d0 dtl)
      have hd45 : ¬ d0 = 45 := by omega
      have hgo := digits_go_long (d0 :: dtl) max_int_len 0 hover (by simp [max_int_len]) (by
        simp only [max_int_len, List.length_cons] at hover16 ⊢
        omega)
      simp [opl_parse_int, hd45, hgo]
  · simp only [digitsVal] at hbigmax
    cases dsBig with
    | nil => simp at hbig1
    | cons d0 dtl =>
      have hd0 := hbig d0 (List.mem_cons_self d0 dtl)
      have hd45 : ¬ d0 = 45 := by omega
      have hgo := digits_go_ok (d0 :: dtl) rest max_int_len 0 hbig (by
        simp only [max_int_len, List.length_cons] at hbig15 ⊢
        omega) hrest
      simp only [List.cons_append] at hgo ⊢
      simp only [List.length_cons] at hbig15
      have hne : ¬ (max_int_len - (dtl.length + 1) = max_int_len) := by
        simp only [max_int_len]
        omega
      simp [opl_parse_int, hd45, hgo, hne, hbigmax]
  · have hgo := digits_go_ok [] (c :: rest) max_int_len 0 (by simp) (by simp [max_int_len]) (by
      simp [headNonDigit, hcnd])
    simp only [List.nil_append] at hgo
    simp [opl_parse_int, hc45, hgo, digitsFold]

/-- Witness for C5: the target range of int8, the literal 12 (and -12), the
overlong 16-digit literal of ones, the out-of-range literal 128, a space as
terminator and the letter g as a digit-free field. -/
theorem C5_int_witness :
    opl_parse_int (-128) 127 ([49, 50] ++ [32]) = .ok (digitsVal [49, 50], [32])
    ∧ opl_parse_int (-128) 127 (45 :: [49, 50] ++ [32]) = .ok (-(digitsVal [49, 50]), [32])
    ∧ opl_parse_int (-128) 127
        [49, 49, 49, 49, 49, 49, 49, 49, 49, 49, 49, 49, 49, 49, 49, 49]
      = .error "integer too long"
    ∧ opl_parse_int (-128) 127 ([49, 50, 56] ++ [32]) = .error "integer too long"
    ∧ opl_parse_int (-128) 127 [] = .error "expected integer"
    ∧ opl_parse_int (-128) 127 (103 :: [32]) = .error "expected integer" := by
  have h := C5_int_amended (-128) 127 [49, 50] [49, 50, 56]
    [49, 49, 49, 49, 49, 49, 49, 49, 49, 49, 49, 49, 49, 49, 49, 49] [32] 103
    (by decide) (by decide) (by decide) (by decide) (by decide) (by decide)
    (by decide) (by decide) (by decide) (by decide) (by decide)
  exact ⟨h.1 (by decide), h.2.1 (by decide), h.2.2.1, h.2.2.2.1 (by decide),
    h.2.2.2.2.1, h.2.2.2.2.2⟩

theorem foldl_sparse_set :
    ∀ (ops : List (Nat × Location)) (acc : List (Nat × Location)),
      List.foldl (fun l p => sparse_set l p.1 p.2) acc ops = acc ++ ops := by
  intro ops
  induction ops with
  | nil => intro acc; simp
  | cons p rest ih =>
    intro acc
    rw [List.foldl_cons]
    exact (ih (sparse_set acc p.1 p.2)).trans (by simp [sparse_set])

theorem buildIndex_eq (ops : List (Nat × Location)) : buildIndex ops = ops := by
  simpa using foldl_sparse_set ops []

theorem foldl_flex_set :
    ∀ (ops : List (Nat × Location)) (es : List (Nat × Location)),
      List.foldl (fun m p => FlexMem.set m p.1 p.2) (.sparse es) ops = .sparse (es ++ ops) := by
  intro ops
  induction ops with
  | nil => intro es; simp
  | cons p rest ih =>
    intro es
    rw [List.foldl_cons]
    exact (ih (es ++ [(p.1, p.2)])).trans (by simp)

theorem buildFlex_eq (ops : List (Nat × Location)) : buildFlex ops = .sparse ops := by
  simpa using foldl_flex_set ops []

theorem mem_insertById :
    ∀ (l : List (Nat × Location)) (p a : Nat × Location),
      a ∈ insertById p l ↔ a = p ∨ a ∈ l := by
  intro l
  induction l with
  | nil => intro p a; simp [insertById]
  | cons q rest ih =>
    intro p a
    simp only [insertById]
    split_ifs with h
    · simp [List.mem_cons]
    · simp only [List.mem_cons, ih]
      tauto

theorem pairwise_insertById :
    ∀ (l : List (Nat × Location)) (p : Nat × Location),
      l.Pairwise (fun a b => a.1 ≤ b.1) →
      (insertById p l).Pairwise (fun a b => a.1 ≤ b.1) := by
  intro l
  induction l with
  | nil => intro p _; simp [insertById]
  | cons q rest ih =>
    intro p hl
    rw [List.pairwise_cons] at hl
    obtain ⟨hq, hrest⟩ := hl
    simp only [insertById]
    split_ifs with h
    · rw [List.pairwise_cons]
      constructor
      · intro r hr
        rcases List.mem_cons.1 hr with rfl | hr
        · omega
        · have := hq r hr
          omega
      · rw [List.pairwise_cons]
        exact ⟨hq, hrest⟩
    · rw [List.pairwise_cons]
      constructor
      · intro r hr
        rcases (mem_insertById rest p r).1 hr with rfl | hr
        · omega
        · exact hq r hr
      · exact ih p hrest

theorem findLast_none :
    ∀ (l : List (Nat × Location)) (id : Nat),
      (∀ r ∈ l, ¬ r.1 = id) → findLast id l = none := by
  intro l
  induction l with
  | nil => intro id _; rfl
  | cons q rest ih =>
    intro id h
    simp only [findLast, ih id (fun r hr => h r (List.mem_cons_of_mem q hr))]
    rw [if_neg (h q (List.mem_cons_self q rest))]

theorem findLast_insertById :
    ∀ (l : List (Nat × Location)) (p : Nat × Location) (id : Nat),
      l.Pairwise (fun a b => a.1 ≤ b.1) →
      findLast id (insertById p l)
        = if p.1 = id then some p.2 else findLast id l := by
  intro l
  induction l with
  | nil => intro p id _; rfl
  | cons q rest ih =>
    intro p id hl
    rw [List.pairwise_cons] at hl
    obtain ⟨hq, hrest⟩ := hl
    by_cases h : p.1 < q.1
    · rw [show insertById p (q :: rest) = p :: q :: rest from by simp [insertById, h]]
      by_cases hp : p.1 = id
      · have hnone : findLast id (q :: rest) = none := by
          apply findLast_none
          intro r hr
          rcases List.mem_cons.1 hr with rfl | hr
          · omega
          · have := hq r hr
            omega
        show (match findLast id (q :: rest) with
              | some l => some l
              | none => if p.1 = id then some p.2 else none)
            = if p.1 = id then some p.2 else findLast id (q :: rest)
        rw [hnone, if_pos hp]
      · show (match findLast id (q :: rest) with
              | some l => some l
              | none => if p.1 = id then some p.2 else none)
            = if p.1 = id then some p.2 else findLast id (q :: rest)
        rw [if_neg hp, if_neg hp]
        cases hfr : findLast id (q :: rest) with
        | some l => rfl
        | none => rfl
    · rw [show insertById p (q :: rest) = q :: insertById p rest from by simp [insertById, h]]
      show (match findLast id (insertById p rest) with
            | some l => some l
            | none => if q.1 = id then some q.2 else none)
          = if p.1 = id then some p.2 else findLast id (q :: rest)
      rw [ih p id hrest]
      by_cases hp : p.1 = id
      · rw [if_pos hp, if_pos hp]
      · rw [if_neg hp, if_neg hp]
        rfl

theorem findLast_foldl_insert :
    ∀ (ops acc : List (Nat × Location)) (id : Nat),
      acc.Pairwise (fun a b => a.1 ≤ b.1) →
      findLast id (List.foldl (fun a p => insertById p a) acc ops)
        = (match findLast id ops with
           | some l => some l
           | none => findLast id acc) := by
  intro ops
  induction ops with
  | nil => intro acc id _; rfl
  | cons p rest ih =>
    intro acc id hacc
    rw [List.foldl_cons]
    rw [ih (insertById p acc) id (pairwise_insertById acc p hacc)]
    rw [findLast_insertById acc p id hacc]
    show (match findLast id rest with
          | some l => some l
          | none => if p.1 = id then some p.2 else findLast id acc)
        = (match (match findLast id rest with
                  | some l => some l
                  | none => if p.1 = id then some p.2 else none) with
           | some l => some l
           | none => findLast id acc)
    cases hfr : findLast id rest with
    | some l => rfl
    | none =>
      by_cases hp : p.1 = id
      · rw [if_pos hp, if_pos hp]
      · rw [if_neg hp, if_neg hp]

theorem findLast_sortIdx (ops : List (Nat × Location)) (id : Nat) :
    findLast id (sortIdx ops) = findLast id ops := by
  unfold sortIdx
  rw [findLast_foldl_insert ops [] id (by simp)]
  cases hfr : findLast id ops with
  | some l => rfl
  | none => rfl

theorem find?_append_singleton :
    ∀ (l : List (Nat × Location)) (q : Nat × Location) (f : Nat × Location → Bool),
      (l ++ [q]).find? f
        = (match l.find? f with
           | some r => some r
           | none => if f q then some q else none) := by
  intro l
  induction l with
  | nil =>
    intro q f
    simp only [List.nil_append, List.find?]
    by_cases h : f q
    · rw [if_pos h]
      simp [List.find?, h]
    · rw [if_neg h]
      simp only [Bool.not_eq_true] at h
      simp [List.find?, h]
  | cons a l ih =>
    intro q f
    simp only [List.cons_append, List.find?]
    by_cases h : f a
    · simp [h]
    · simp only [Bool.not_eq_true] at h
      simp only [h]
      exact ih q f

theorem lastSet_eq_findLast :
    ∀ (ops : List (Nat × Location)) (id : Nat),
      lastSet ops id = findLast id ops := by
  intro ops
  induction ops with
  | nil => intro id; rfl
  | cons p rest ih =>
    intro id
    simp only [lastSet, List.reverse_cons, find?_append_singleton, findLast]
    cases hfr : rest.reverse.find? (fun p => p.1 == id) with
    | some r =>
      have : lastSet rest id = some r.2 := by
        simp [lastSet, hfr]
      rw [← ih id, this]
      rfl
    | none =>
      have hnone : lastSet rest id = none := by
        simp [lastSet, hfr]
      rw [← ih id, hnone]
      by_cases hp : p.1 = id
      · have hb : (p.1 == id) = true := by
          exact beq_iff_eq.2 hp
        simp [hb, hp]
      · have hb : (p.1 == id) = false := by
          simp [hp]
        simp [hb, hp]

/-- C1: index completeness of the sparse array.  For any sequence of set
calls, after sort the lookup of any id that was set yields the last written
location, and any id never set fails with not_found in get and yields the
undefined Location in get_noexcept. -/
theorem C1_index_completeness :
    ∀ (ops : List (Nat × Location)) (id : Nat),
      sparse_get (sortIdx (buildIndex ops)) id
        = (match lastSet ops id with
           | some loc => .ok loc
           | none => .error ("id " ++ toString id ++ " not found"))
      ∧ sparse_get_noexcept (sortIdx (buildIndex ops)) id
        = (match lastSet ops id with
           | some loc => loc
           | none => Location.undefined) := by
  intro ops id
  rw [buildIndex_eq]
  rw [show lastSet ops id = findLast id ops from lastSet_eq_findLast ops id]
  unfold sparse_get sparse_get_noexcept
  rw [findLast_sortIdx]
  cases hfr : findLast id ops with
  | some l => exact ⟨rfl, rfl⟩
  | none => exact ⟨rfl, rfl⟩

theorem getD_set :
    ∀ (l : List Location) (i j : Nat) (v : Location),
      (l.set i v).getD j Location.undefined
        = if i = j ∧ i < l.length then v else l.getD j Location.undefined := by
  intro l
  induction l with
  | nil =>
    intro i j v
    simp [List.set]
  | cons a tl ih =>
    intro i j v
    cases i with
    | zero =>
      cases j with
      | zero => simp [List.set]
      | succ k => simp [List.set]
    | succ m =>
      cases j with
      | zero => simp [List.set]
      | succ k =>
        simp only [List.set, List.getD_cons_succ, List.length_cons]
        rw [ih m k v]
        by_cases hc : m = k ∧ m < tl.length
        · rw [if_pos hc, if_pos (by omega)]
        · rw [if_neg hc, if_neg (by omega)]

theorem getD_replicate :
    ∀ (n j : Nat), (List.replicate n Location.undefined).getD j Location.undefined
      = Location.undefined := by
  intro n
  induction n with
  | zero => intro j; simp
  | succ m ih =>
    intro j
    cases j with
    | zero => simp [List.replicate]
    | succ k => simp [List.replicate, ih k]

theorem foldl_set_getD :
    ∀ (entries : List (Nat × Location)) (arr : List Location) (id : Nat),
      (∀ p ∈ entries, p.1 < arr.length) →
      (List.foldl (fun a p => a.set p.1 p.2) arr entries).getD id Location.undefined
        = (match findLast id entries with
           | some l => l
           | none => arr.getD id Location.undefined) := by
  intro entries
  induction entries with
  | nil => intro arr id _; rfl
  | cons p rest ih =>
    intro arr id hlt
    have hp := hlt p (List.mem_cons_self p rest)
    simp only [List.foldl_cons]
    rw [ih (arr.set p.1 p.2) id (by
      intro q hq
      rw [List.length_set]
      exact hlt q (List.mem_cons_of_mem p hq))]
    simp only [findLast]
    cases hfr : findLast id rest with
    | some l => rfl
    | none =>
      rw [getD_set]
      by_cases hid : p.1 = id
      · rw [if_pos ⟨hid, hp⟩, if_pos hid]
      · rw [if_neg (by tauto), if_neg hid]

theorem mem_foldl_insert :
    ∀ (ops acc : List (Nat × Location)) (a : Nat × Location),
      a ∈ List.foldl (fun l p => insertById p l) acc ops ↔ a ∈ acc ∨ a ∈ ops := by
  intro ops
  induction ops with
  | nil => intro acc a; simp
  | cons p rest ih =>
    intro acc a
    simp only [List.foldl_cons, ih, mem_insertById, List.mem_cons]
    tauto

theorem le_foldl_max :
    ∀ (ops : List (Nat × Location)) (m : Nat),
      m ≤ ops.foldl (fun a q => max a q.1) m := by
  intro ops
  induction ops with
  | nil => intro m; simp
  | cons q rest ih =>
    intro m
    simp only [List.foldl_cons]
    exact le_trans (le_max_left m q.1) (ih (max m q.1))

theorem mem_le_maxId :
    ∀ (ops : List (Nat × Location)) (m : Nat) (p : Nat × Location),
      p ∈ ops → p.1 ≤ ops.foldl (fun a q => max a q.1) m := by
  intro ops
  induction ops with
  | nil => intro m p hp; simp at hp
  | cons q rest ih =>
    intro m p hp
    rcases List.mem_cons.1 hp with rfl | hp
    · simp only [List.foldl_cons]
      exact le_trans (le_max_right m p.1) (le_foldl_max rest (max m p.1))
    · simp only [List.foldl_cons]
      exact ih (max m q.1) p hp

/-- C6: switching a sparse-populated Flex index to dense preserves every
binding: is_dense becomes true, get returns the same value as before the
switch for every id, and get_noexcept yields the last written location for
set ids and the undefined Location for unset ids. -/
theorem C6_flex_switch :
    ∀ (ops : List (Nat × Location)) (id : Nat),
      (FlexMem.switch_to_dense (buildFlex ops)).is_dense = true
      ∧ FlexMem.get (FlexMem.switch_to_dense (buildFlex ops)) id
          = FlexMem.get (buildFlex ops) id
      ∧ FlexMem.get_noexcept (FlexMem.switch_to_dense (buildFlex ops)) id
          = (match lastSet ops id with
             | some loc => loc
             | none => Location.undefined) := by
  intro ops id
  rw [buildFlex_eq]
  have hbound : ∀ p ∈ sortIdx ops, p.1 < (List.replicate (maxId ops + 1) Location.undefined).length := by
    intro p hp
    rw [List.length_replicate]
    have hmem : p ∈ ops := by
      have := (mem_foldl_insert ops [] p).1 hp
      simpa using this
    have := mem_le_maxId ops 0 p hmem
    simp only [maxId]
    omega
  have hnoex :
      FlexMem.get_noexcept (FlexMem.switch_to_dense (.sparse ops)) id
        = (match lastSet ops id with
           | some loc => loc
           | none => Location.undefined) := by
    simp only [FlexMem.switch_to_dense, FlexMem.get_noexcept]
    rw [foldl_set_getD (sortIdx ops) _ id hbound]
    rw [findLast_sortIdx, ← lastSet_eq_findLast]
    cases hfr : lastSet ops id with
    | some l => rfl
    | none => rw [getD_replicate]
  have hnoex2 :
      FlexMem.get_noexcept (FlexMem.sparse ops) id
        = (match lastSet ops id with
           | some loc => loc
           | none => Location.undefined) := by
    simp only [FlexMem.get_noexcept, sparse_get_noexcept, ← lastSet_eq_findLast]
  refine ⟨rfl, ?_, hnoex⟩
  unfold FlexMem.get
  rw [hnoex, hnoex2]

theorem varintDecode_length :
    ∀ (s : List Nat) (v : Nat) (r : List Nat),
      varintDecode s = some (v, r) → r.length < s.length := by
  intro s
  induction s with
  | nil => intro v r h; simp [varintDecode] at h
  | cons b bs ih =>
    intro v r h
    simp only [varintDecode] at h
    by_cases hb : b < 128
    · rw [if_pos hb] at h
      injection h with h
      injection h with h1 h2
      subst h2
      simp
    · rw [if_neg hb] at h
      cases hv : varintDecode bs with
      | none => rw [hv] at h; simp at h
      | some p =>
        obtain ⟨v1, r1⟩ := p
        rw [hv] at h
        injection h with h
        injection h with h1 h2
        subst h2
        have hlt := ih v1 r1 hv
        simp only [List.length_cons]
        omega

theorem varintDecode_cons_low (b : Nat) (rest : List Nat) (h : b < 128) :
    varintDecode (b :: rest) = some (b, rest) := by
  simp [varintDecode, h]

theorem varintDecode_cons_high (b : Nat) (rest : List Nat) (v : Nat) (r : List Nat)
    (h : ¬ b < 128) (h2 : varintDecode rest = some (v, r)) :
    varintDecode (b :: rest) = some ((b - 128) + 128 * v, r) := by
  simp [varintDecode, h, h2]

theorem varint_roundtrip :
    ∀ (n : Nat) (rest : List Nat), n < 34359738368 →
      varintDecode (encodeVarint n ++ rest) = some (n, rest) := by
  intro n rest hn
  unfold encodeVarint
  split_ifs with h1 h2 h3 h4
  · simp only [List.cons_append, List.nil_append]
    rw [varintDecode_cons_low n rest h1]
  · simp only [List.cons_append, List.nil_append]
    rw [varintDecode_cons_high _ _ _ _ (by omega)
      (varintDecode_cons_low (n / 128) rest (by omega))]
    have : n % 128 + 128 - 128 + 128 * (n / 128) = n := by omega
    rw [this]
  · simp only [List.cons_append, List.nil_append]
    rw [varintDecode_cons_high _ _ _ _ (by omega)
      (varintDecode_cons_high _ _ _ _ (by omega)
        (varintDecode_cons_low (n / 16384) rest (by omega)))]
    have : n % 128 + 128 - 128 + 128 * (n / 128 % 128 + 128 - 128 + 128 * (n / 16384)) = n := by
      omega
    rw [this]
  · simp only [List.cons_append, List.nil_append]
    rw [varintDecode_cons_high _ _ _ _ (by omega)
      (varintDecode_cons_high _ _ _ _ (by omega)
        (varintDecode_cons_high _ _ _ _ (by omega)
          (varintDecode_cons_low (n / 2097152) rest (by omega))))]
    have : n % 128 + 128 - 128 + 128 * (n / 128 % 128 + 128 - 128
        + 128 * (n / 16384 % 128 + 128 - 128 + 128 * (n / 2097152))) = n := by
      omega
    rw [this]
  · simp only [List.cons_append, List.nil_append]
    rw [varintDecode_cons_high _ _ _ _ (by omega)
      (varintDecode_cons_high _ _ _ _ (by omega)
        (varintDecode_cons_high _ _ _ _ (by omega)
          (varintDecode_cons_high _ _ _ _ (by omega)
            (varintDecode_cons_low (n / 268435456) rest (by omega)))))]
    have : n % 128 + 128 - 128 + 128 * (n / 128 % 128 + 128 - 128
        + 128 * (n / 16384 % 128 + 128 - 128
          + 128 * (n / 2097152 % 128 + 128 - 128 + 128 * (n / 268435456)))) = n := by
      omega
    rw [this]

theorem encodeVarint_length_le (n : Nat) (_h : n < 34359738368) :
    (encodeVarint n).length ≤ 5 := by
  unfold encodeVarint
  split_ifs <;> simp

theorem encodeVarint_length_pos (n : Nat) : 1 ≤ (encodeVarint n).length := by
  unfold encodeVarint
  split_ifs <;> simp

theorem ntohl_be32 (n : Nat) (h : n < 4294967296) : ntohl (be32 n) = n := by
  simp only [ntohl, be32, List.getD_cons_zero, List.getD_cons_succ]
  omega

theorem be32_length (n : Nat) : (be32 n).length = 4 := by
  simp [be32]

theorem read_exact (a b : List Nat) :
    read_from_input_queue a.length (a ++ b) = .ok (a, b) := by
  unfold read_from_input_queue
  rw [if_neg (by rw [List.length_append]; omega)]
  rw [List.take_left, List.drop_left]

theorem read_short (n : Nat) (s : List Nat) (h : s.length < n) :
    read_from_input_queue n s = .error "truncated data (EOF encountered)" := by
  unfold read_from_input_queue
  rw [if_pos h]

theorem read_ok_len (n : Nat) (s o r : List Nat)
    (h : read_from_input_queue n s = .ok (o, r)) :
    r = s.drop n ∧ n ≤ s.length := by
  unfold read_from_input_queue at h
  by_cases hl : s.length < n
  · rw [if_pos hl] at h
    simp at h
  · rw [if_neg hl] at h
    injection h with h
    injection h with h1 h2
    exact ⟨h2.symm, by omega⟩

theorem rbhs_enc (n : Nat) (s : List Nat) (h : n ≤ max_blob_header_size) :
    read_blob_header_size_from_file (be32 n ++ s) = .ok (n, s) := by
  unfold read_blob_header_size_from_file
  rw [show (4 : Nat) = (be32 n).length from (be32_length n).symm, read_exact]
  simp only []
  rw [ntohl_be32 n (by simp only [max_blob_header_size] at h; omega)]
  rw [if_neg (not_lt.2 h)]

theorem rbhs_eof (s : List Nat) (h : s.length ≤ 3) :
    read_blob_header_size_from_file s = .ok (0, s) := by
  unfold read_blob_header_size_from_file
  rw [read_short 4 s (by omega)]

theorem rbhs_ok_len (s : List Nat) (sz : Nat) (s1 : List Nat)
    (h : read_blob_header_size_from_file s = .ok (sz, s1)) :
    (sz = 0 ∧ s1 = s) ∨ (s1 = s.drop 4 ∧ 4 ≤ s.length) := by
  unfold read_blob_header_size_from_file at h
  by_cases hl : s.length < 4
  · rw [read_short 4 s hl] at h
    injection h with h
    injection h with h1 h2
    exact Or.inl ⟨h1.symm, h2.symm⟩
  · have hread : read_from_input_queue 4 s = .ok (s.take 4, s.drop 4) := by
      unfold read_from_input_queue
      rw [if_neg hl]
    rw [hread] at h
    simp only [] at h
    by_cases hm : ntohl (s.take 4) > max_blob_header_size
    · rw [if_pos hm] at h
      simp at h
    · rw [if_neg hm] at h
      injection h with h
      injection h with h1 h2
      exact Or.inr ⟨h2.symm, by omega⟩

theorem scan_irrel :
    ∀ (k : Nat) (s : List Nat) (f1 f2 : Nat) (typ : List Nat) (ds : Nat),
      s.length ≤ k → s.length < f1 → s.length < f2 →
      scanBlobHeader f1 s typ ds = scanBlobHeader f2 s typ ds := by
  intro k
  induction k with
  | zero =>
    intro s f1 f2 typ ds hk h1 h2
    have hs : s = [] := List.eq_nil_of_length_eq_zero (by omega)
    subst hs
    cases f1 with
    | zero => omega
    | succ g1 =>
      cases f2 with
      | zero => omega
      | succ g2 => rfl
  | succ m ih =>
    intro s f1 f2 typ ds hk h1 h2
    cases s with
    | nil =>
      cases f1 with
      | zero => omega
      | succ g1 =>
        cases f2 with
        | zero => omega
        | succ g2 => rfl
    | cons b bs =>
      cases f1 with
      | zero => omega
      | succ g1 =>
        cases f2 with
        | zero => omega
        | succ g2 =>
          simp only [scanBlobHeader]
          cases hv : varintDecode (b :: bs) with
          | none => rfl
          | some kv =>
            obtain ⟨key, r1⟩ := kv
            have hr1 : r1.length < (b :: bs).length := varintDecode_length _ _ _ hv
            have hnext : ∀ (r : List Nat) (t : List Nat) (d : Nat),
                r.length ≤ r1.length →
                scanBlobHeader g1 r t d = scanBlobHeader g2 r t d := by
              intro r t d hr
              exact ih r g1 g2 t d (by simp only [List.length_cons] at hk hr1; omega)
                (by simp only [List.length_cons] at h1 hr1; omega)
                (by simp only [List.length_cons] at h2 hr1; omega)
            simp only []
            by_cases c1 : key / 8 = 1 ∧ key % 8 = 2
            · rw [if_pos c1, if_pos c1]
              cases hv2 : varintDecode r1 with
              | none => rfl
              | some lr =>
                obtain ⟨len, r2⟩ := lr
                have hr2 := varintDecode_length _ _ _ hv2
                simp only []
                by_cases hlen : r2.length < len
                · rw [if_pos hlen, if_pos hlen]
                · rw [if_neg hlen, if_neg hlen]
                  exact hnext _ _ _ (by rw [List.length_drop]; omega)
            · rw [if_neg c1, if_neg c1]
              by_cases c2 : key / 8 = 3 ∧ key % 8 = 0
              · rw [if_pos c2, if_pos c2]
                cases hv2 : varintDecode r1 with
                | none => rfl
                | some vr =>
                  obtain ⟨v, r2⟩ := vr
                  have hr2 := varintDecode_length _ _ _ hv2
                  simp only []
                  exact hnext _ _ _ (by omega)
              · rw [if_neg c2, if_neg c2]
                by_cases c3 : key % 8 = 0
                · rw [if_pos c3, if_pos c3]
                  cases hv2 : varintDecode r1 with
                  | none => rfl
                  | some vr =>
                    obtain ⟨v, r2⟩ := vr
                    have hr2 := varintDecode_length _ _ _ hv2
                    simp only []
                    exact hnext _ _ _ (by omega)
                · rw [if_neg c3, if_neg c3]
                  by_cases c4 : key % 8 = 2
                  · rw [if_pos c4, if_pos c4]
                    cases hv2 : varintDecode r1 with
                    | none => rfl
                    | some lr =>
                      obtain ⟨len, r2⟩ := lr
                      have hr2 := varintDecode_length _ _ _ hv2
                      simp only []
                      by_cases hlen : r2.length < len
                      · rw [if_pos hlen, if_pos hlen]
                      · rw [if_neg hlen, if_neg hlen]
                        exact hnext _ _ _ (by rw [List.length_drop]; omega)
                  · rw [if_neg c4, if_neg c4]
                    by_cases c5 : key % 8 = 1
                    · rw [if_pos c5, if_pos c5]
                      by_cases hlen : r1.length < 8
                      · rw [if_pos hlen, if_pos hlen]
                      · rw [if_neg hlen, if_neg hlen]
                        exact hnext _ _ _ (by rw [List.length_drop]; omega)
                    · rw [if_neg c5, if_neg c5]
                      by_cases c6 : key % 8 = 5
                      · rw [if_pos c6, if_pos c6]
                        by_cases hlen : r1.length < 4
                        · rw [if_pos hlen, if_pos hlen]
                        · rw [if_neg hlen, if_neg hlen]
                          exact hnext _ _ _ (by rw [List.length_drop]; omega)
                      · rw [if_neg c6, if_neg c6]

theorem scan_nil (f : Nat) (typ : List Nat) (ds : Nat) (h : 0 < f) :
    scanBlobHeader f [] typ ds = some (typ, ds) := by
  cases f with
  | zero => omega
  | succ g => rfl

theorem scan_enc (typ : List Nat) (ds : Nat)
    (h1 : typ.length < 34359738368) (h2 : ds < 34359738368) :
    scanBlobHeader ((encodeBlobHeader typ ds).length + 1) (encodeBlobHeader typ ds) [] 0
      = some (typ, int32_to_size_t ds) := by
  have hv1 := encodeVarint_length_pos typ.length
  simp only [encodeBlobHeader]
  simp only [scanBlobHeader]
  rw [varintDecode_cons_low 10 _ (by omega)]
  simp only []
  rw [if_pos (⟨trivial, trivial⟩ : True ∧ True)]
  rw [List.append_assoc]
  rw [varint_roundtrip typ.length _ h1]
  simp only []
  rw [if_neg (show ¬ (typ ++ 24 :: encodeVarint ds).length < typ.length by
    rw [List.length_append]; omega)]
  rw [List.take_left, List.drop_left]
  rw [scan_irrel (24 :: encodeVarint ds).length (24 :: encodeVarint ds) _
    ((24 :: encodeVarint ds).length + 1) typ 0 le_rfl (by
      simp only [List.length_cons, List.length_append]
      omega) (by omega)]
  simp only [scanBlobHeader]
  rw [varintDecode_cons_low 24 _ (by omega)]
  simp only []
  rw [if_neg (show ¬ ((24 : Nat) / 8 = 1 ∧ (24 : Nat) % 8 = 2) by omega)]
  rw [if_pos (⟨trivial, trivial⟩ : True ∧ True)]
  have hvd : varintDecode (encodeVarint ds) = some (ds, []) := by
    have hrt := varint_roundtrip ds [] h2
    rwa [List.append_nil] at hrt
  rw [hvd]
  simp only []
  rw [scan_nil _ typ _ (by simp)]

theorem scan_enc_type_only (typ : List Nat) (h1 : typ.length < 34359738368) :
    scanBlobHeader ((encodeBlobHeaderTypeOnly typ).length + 1) (encodeBlobHeaderTypeOnly typ) [] 0
      = some (typ, 0) := by
  simp only [encodeBlobHeaderTypeOnly]
  simp only [scanBlobHeader]
  rw [varintDecode_cons_low 10 _ (by omega)]
  simp only []
  rw [if_pos (⟨trivial, trivial⟩ : True ∧ True)]
  have hvr : varintDecode (encodeVarint typ.length ++ typ) = some (typ.length, typ) :=
    varint_roundtrip _ _ h1
  rw [hvr]
  simp only []
  rw [if_neg (show ¬ typ.length < typ.length by omega)]
  rw [List.take_length, List.drop_length]
  rw [scan_nil _ typ _ (by simp)]

theorem decode_enc (typ : List Nat) (ds : Nat) (exp : List Nat)
    (h1 : typ.length < 34359738368) (h2 : ds < 2147483648) :
    decode_blob_header (encodeBlobHeader typ ds) exp
      = if ds = 0 then .error "PBF format error: BlobHeader.datasize missing or zero."
        else if typeMatches exp typ then .ok ds
        else .error "blob does not have expected type (OSMHeader in first blob, OSMData in following blobs)" := by
  unfold decode_blob_header
  rw [scan_enc typ ds h1 (by omega)]
  have hcast : int32_to_size_t ds = ds := by
    unfold int32_to_size_t
    rw [Nat.mod_eq_of_lt (by omega)]
    rw [if_pos (by omega)]
  rw [hcast]

theorem decode_enc_type_only (typ exp : List Nat) (h1 : typ.length < 34359738368) :
    decode_blob_header (encodeBlobHeaderTypeOnly typ) exp
      = .error "PBF format error: BlobHeader.datasize missing or zero." := by
  unfold decode_blob_header
  rw [scan_enc_type_only typ h1]
  rfl

theorem check_type_enc (exp typ : List Nat) (ds : Nat) (s : List Nat)
    (h1 : typ.length < 34359738368) (h2 : ds < 2147483648)
    (hb : (encodeBlobHeader typ ds).length ≤ max_blob_header_size) :
    check_type_and_get_blob_size exp
        (be32 (encodeBlobHeader typ ds).length ++ (encodeBlobHeader typ ds ++ s))
      = if ds = 0 then .error "PBF format error: BlobHeader.datasize missing or zero."
        else if typeMatches exp typ then .ok (ds, s)
        else .error "blob does not have expected type (OSMHeader in first blob, OSMData in following blobs)" := by
  unfold check_type_and_get_blob_size
  rw [rbhs_enc _ _ hb]
  simp only []
  rw [if_neg (show ¬ (encodeBlobHeader typ ds).length = 0 by simp [encodeBlobHeader])]
  rw [read_exact (encodeBlobHeader typ ds) s]
  simp only []
  rw [decode_enc typ ds exp h1 h2]
  by_cases hds : ds = 0
  · rw [if_pos hds, if_pos hds]
  · rw [if_neg hds, if_neg hds]
    by_cases ht : typeMatches exp typ = true
    · rw [if_pos ht, if_pos ht]
    · rw [if_neg ht, if_neg ht]

theorem check_ok_len (exp s : List Nat) (sz : Nat) (s1 : List Nat)
    (h : check_type_and_get_blob_size exp s = .ok (sz, s1)) (hsz : ¬ sz = 0) :
    s1.length + 4 ≤ s.length := by
  unfold check_type_and_get_blob_size at h
  cases hr : read_blob_header_size_from_file s with
  | error e => rw [hr] at h; simp at h
  | ok p =>
    obtain ⟨size, sr⟩ := p
    rw [hr] at h
    simp only [] at h
    by_cases hsz0 : size = 0
    · rw [if_pos hsz0] at h
      injection h with h
      injection h with ha hb
      exact absurd ha.symm hsz
    · rw [if_neg hsz0] at h
      rcases rbhs_ok_len s size sr hr with ⟨hz, _⟩ | ⟨hdrop, hlen⟩
      · exact absurd hz hsz0
      · cases hread : read_from_input_queue size sr with
        | error e => rw [hread] at h; simp at h
        | ok q =>
          obtain ⟨hdr, sr2⟩ := q
          rw [hread] at h
          simp only [] at h
          obtain ⟨hd2, hle⟩ := read_ok_len size sr hdr sr2 hread
          cases hdec : decode_blob_header hdr exp with
          | error e => rw [hdec] at h; simp at h
          | ok dsv =>
            rw [hdec] at h
            injection h with h
            injection h with ha hb
            subst hb
            have hs2 : sr2.length ≤ sr.length := by
              rw [hd2, List.length_drop]
              omega
            have hs1 : sr.length = s.length - 4 := by
              rw [hdrop, List.length_drop]
            omega

theorem framer_loop_irrel :
    ∀ (k : Nat) (s : List Nat) (f1 f2 : Nat) (acc : List (List Nat)),
      s.length ≤ k → s.length < f1 → s.length < f2 →
      framer_loop f1 s acc = framer_loop f2 s acc := by
  intro k
  induction k with
  | zero =>
    intro s f1 f2 acc hk h1 h2
    have hs : s = [] := List.eq_nil_of_length_eq_zero (by omega)
    subst hs
    cases f1 with
    | zero => omega
    | succ g1 =>
      cases f2 with
      | zero => omega
      | succ g2 => rfl
  | succ m ih =>
    intro s f1 f2 acc hk h1 h2
    cases f1 with
    | zero => omega
    | succ g1 =>
      cases f2 with
      | zero => omega
      | succ g2 =>
        simp only [framer_loop]
        cases hch : check_type_and_get_blob_size OSMDataBytes s with
        | error e => rfl
        | ok p =>
          obtain ⟨size, s1⟩ := p
          simp only []
          by_cases hsz : size = 0
          · rw [if_pos hsz, if_pos hsz]
          · rw [if_neg hsz, if_neg hsz]
            have hlen := check_ok_len OSMDataBytes s size s1 hch hsz
            cases hread : read_from_input_queue size s1 with
            | error e => rfl
            | ok q =>
              obtain ⟨body, s2⟩ := q
              simp only []
              obtain ⟨hd2, hle⟩ := read_ok_len size s1 body s2 hread
              have hs2 : s2.length ≤ s1.length := by
                rw [hd2, List.length_drop]
                omega
              by_cases hbig : body.length > max_uncompressed_blob_size
              · rw [if_pos hbig, if_pos hbig]
              · rw [if_neg hbig, if_neg hbig]
                exact ih s2 g1 g2 (acc ++ [body]) (by omega) (by omega) (by omega)

theorem framerGo_eq (f : Nat) (s : List Nat) (acc : List (List Nat)) (h : s.length < f) :
    framer_loop f s acc = framerGo s acc :=
  framer_loop_irrel s.length s f (s.length + 1) acc le_rfl h (by omega)

theorem encB_len (typ : List Nat) (ds : Nat) :
    (encodeBlobHeader typ ds).length
      = 2 + (encodeVarint typ.length).length + typ.length + (encodeVarint ds).length := by
  simp only [encodeBlobHeader, List.length_cons, List.length_append]
  omega

theorem data_header_le (ds : Nat) (h : ds < 34359738368) :
    (encodeBlobHeader OSMDataBytes ds).length ≤ max_blob_header_size := by
  rw [encB_len]
  have h5 := encodeVarint_length_le ds h
  have h7 : OSMDataBytes.length = 7 := rfl
  have hv : (encodeVarint OSMDataBytes.length).length = 1 := rfl
  simp only [max_blob_header_size]
  omega

theorem header_header_le (ds : Nat) (h : ds < 34359738368) :
    (encodeBlobHeader OSMHeaderBytes ds).length ≤ max_blob_header_size := by
  rw [encB_len]
  have h5 := encodeVarint_length_le ds h
  have h9 : OSMHeaderBytes.length = 9 := rfl
  have hv : (encodeVarint OSMHeaderBytes.length).length = 1 := rfl
  simp only [max_blob_header_size]
  omega

theorem framerGo_data (b : List Nat) (s : List Nat) (acc : List (List Nat))
    (h1 : 1 ≤ b.length) (h2 : b.length ≤ max_uncompressed_blob_size) :
    framerGo (mkDataBlob b ++ s) acc = framerGo s (acc ++ [b]) := by
  have hds : b.length < 2147483648 := by
    simp only [max_uncompressed_blob_size] at h2
    omega
  have hbound := data_header_le b.length (by omega)
  have htm : typeMatches OSMDataBytes OSMDataBytes = true := rfl
  have hshape : mkDataBlob b ++ s
      = be32 (encodeBlobHeader OSMDataBytes b.length).length
        ++ (encodeBlobHeader OSMDataBytes b.length ++ (b ++ s)) := by
    simp [mkDataBlob, mkBlob, List.append_assoc]
  have hcheck : check_type_and_get_blob_size OSMDataBytes (mkDataBlob b ++ s)
      = .ok (b.length, b ++ s) := by
    rw [hshape, check_type_enc OSMDataBytes OSMDataBytes b.length (b ++ s) (by decide) hds hbound]
    rw [if_neg (by omega), if_pos htm]
  unfold framerGo
  simp only [framer_loop]
  rw [hcheck]
  simp only []
  rw [if_neg (by omega)]
  rw [read_exact b s]
  simp only []
  rw [if_neg (by omega)]
  exact framerGo_eq (mkDataBlob b ++ s).length s (acc ++ [b]) (by
    rw [List.length_append]
    have hpos : 0 < (mkDataBlob b).length := by
      simp [mkDataBlob, mkBlob, be32]
    omega)

theorem framerGo_blobs :
    ∀ (blobs : List (List Nat)) (s : List Nat) (acc : List (List Nat)),
      (∀ x ∈ blobs, 1 ≤ x.length ∧ x.length ≤ max_uncompressed_blob_size) →
      framerGo (concatAll (blobs.map mkDataBlob) ++ s) acc = framerGo s (acc ++ blobs) := by
  intro blobs
  induction blobs with
  | nil =>
    intro s acc _
    simp [concatAll]
  | cons b rest ih =>
    intro s acc hall
    have hb := hall b (List.mem_cons_self b rest)
    have hshape : concatAll ((b :: rest).map mkDataBlob) ++ s
        = mkDataBlob b ++ (concatAll (rest.map mkDataBlob) ++ s) := by
      simp [concatAll, List.append_assoc]
    rw [hshape, framerGo_data b _ acc hb.1 hb.2,
      ih _ (acc ++ [b]) (fun x hx => hall x (List.mem_cons_of_mem b hx))]
    simp

theorem parse_header_ok (hb : List Nat) (rest : List Nat)
    (h1 : 1 ≤ hb.length) (h2 : hb.length < 2147483648)
    (hdec : decode_header hb = .ok ()) :
    parse_header_blob (mkHeaderBlob hb ++ rest) = .ok rest := by
  have hbound := header_header_le hb.length (by omega)
  have htm : typeMatches OSMHeaderBytes OSMHeaderBytes = true := rfl
  have hshape : mkHeaderBlob hb ++ rest
      = be32 (encodeBlobHeader OSMHeaderBytes hb.length).length
        ++ (encodeBlobHeader OSMHeaderBytes hb.length ++ (hb ++ rest)) := by
    simp [mkHeaderBlob, mkBlob, List.append_assoc]
  have hcheck : check_type_and_get_blob_size OSMHeaderBytes (mkHeaderBlob hb ++ rest)
      = .ok (hb.length, hb ++ rest) := by
    rw [hshape, check_type_enc OSMHeaderBytes OSMHeaderBytes hb.length (hb ++ rest)
      (by decide) h2 hbound]
    rw [if_neg (by omega), if_pos htm]
  unfold parse_header_blob
  rw [hcheck]
  simp only []
  rw [read_exact hb rest]
  simp only []
  rw [hdec]

theorem parse_header_badtype (typ rest : List Nat) (ds : Nat)
    (h1 : typ.length < 34359738368) (h2 : ds < 2147483648) (hds : ¬ ds = 0)
    (hbound : (encodeBlobHeader typ ds).length ≤ max_blob_header_size)
    (htm : typeMatches OSMHeaderBytes typ = false) :
    parse_header_blob (be32 (encodeBlobHeader typ ds).length ++ (encodeBlobHeader typ ds ++ rest))
      = .error "blob does not have expected type (OSMHeader in first blob, OSMData in following blobs)" := by
  unfold parse_header_blob
  rw [check_type_enc OSMHeaderBytes typ ds rest h1 h2 hbound]
  rw [if_neg hds, if_neg (by simp [htm])]

theorem framerGo_badtype (typ rest : List Nat) (ds : Nat) (acc : List (List Nat))
    (h1 : typ.length < 34359738368) (h2 : ds < 2147483648) (hds : ¬ ds = 0)
    (hbound : (encodeBlobHeader typ ds).length ≤ max_blob_header_size)
    (htm : typeMatches OSMDataBytes typ = false) :
    framerGo (be32 (encodeBlobHeader typ ds).length ++ (encodeBlobHeader typ ds ++ rest)) acc
      = (acc, .error "blob does not have expected type (OSMHeader in first blob, OSMData in following blobs)") := by
  unfold framerGo
  simp only [framer_loop]
  rw [check_type_enc OSMDataBytes typ ds rest h1 h2 hbound]
  rw [if_neg hds, if_neg (by simp [htm])]

theorem framerGo_trunc (typ tail : List Nat) (ds : Nat) (acc : List (List Nat))
    (h1 : typ.length < 34359738368) (h2 : ds < 2147483648)
    (hbound : (encodeBlobHeader typ ds).length ≤ max_blob_header_size)
    (htm : typeMatches OSMDataBytes typ = true) (hlt : tail.length < ds) :
    framerGo (be32 (encodeBlobHeader typ ds).length ++ (encodeBlobHeader typ ds ++ tail)) acc
      = (acc, .error "truncated data (EOF encountered)") := by
  unfold framerGo
  simp only [framer_loop]
  rw [check_type_enc OSMDataBytes typ ds tail h1 h2 hbound]
  rw [if_neg (by omega), if_pos htm]
  simp only []
  rw [if_neg (by omega)]
  rw [read_short ds tail hlt]

theorem framerGo_eof (extra : List Nat) (acc : List (List Nat)) (h : extra.length ≤ 3) :
    framerGo extra acc = (acc, .ok ()) := by
  have hch : check_type_and_get_blob_size OSMDataBytes extra = .ok (0, extra) := by
    unfold check_type_and_get_blob_size
    rw [rbhs_eof extra h]
    rfl
  unfold framerGo
  simp only [framer_loop]
  rw [hch]
  rfl

/-- C7: in a stream whose OSMHeader payload decodes, a data blob whose
BlobHeader declares a datasize larger than the bytes remaining in the
stream makes the framer raise pbf_error "truncated data (EOF
encountered)", which the consumer observes on the read following the last
complete blob, instead of the end-of-file sentinel. -/
theorem C7_truncated_data :
    ∀ (hb : List Nat) (blobs : List (List Nat)) (typ : List Nat) (ds : Nat) (tail : List Nat),
      1 ≤ hb.length → hb.length < 2147483648 →
      decode_header hb = .ok () →
      (∀ x ∈ blobs, 1 ≤ x.length ∧ x.length ≤ max_uncompressed_blob_size) →
      typ.length < 34359738368 → ds < 2147483648 →
      (encodeBlobHeader typ ds).length ≤ max_blob_header_size →
      typeMatches OSMDataBytes typ = true →
      tail.length < ds →
      runFramer (mkHeaderBlob hb
          ++ (concatAll (blobs.map mkDataBlob)
            ++ (be32 (encodeBlobHeader typ ds).length ++ (encodeBlobHeader typ ds ++ tail))))
        = (blobs, .error "truncated data (EOF encountered)") := by
  intro hb blobs typ ds tail hhb1 hhb2 hdec hblobs ht hds hbound htm hlt
  unfold runFramer
  rw [parse_header_ok hb _ hhb1 hhb2 hdec]
  simp only []
  rw [framerGo_blobs blobs _ [] hblobs]
  rw [framerGo_trunc typ tail ds ([] ++ blobs) ht hds hbound htm hlt]
  simp

/-- Witness for C7: a decodable header blob (a Blob message carrying empty
raw data), one complete data blob [7], and a truncated blob declaring
datasize 2 with only one byte left. -/
theorem C7_truncated_data_witness :
    runFramer (mkHeaderBlob [10, 0]
        ++ (concatAll ([[7]].map mkDataBlob)
          ++ (be32 (encodeBlobHeader OSMDataBytes 2).length
            ++ (encodeBlobHeader OSMDataBytes 2 ++ [9]))))
      = ([[7]], .error "truncated data (EOF encountered)") :=
  C7_truncated_data [10, 0] [[7]] OSMDataBytes 2 [9] (by decide) (by decide) rfl
    (by decide) (by decide) (by decide) (by decide) (by decide) (by decide)

/-- C8 as stated fails: a first blob whose BlobHeader type is "OSM" is not
equal to "OSMHeader", yet decode_blob_header accepts it (strncmp compares
only the stored type's length, so any prefix passes) and a whole stream
headed by it — with a payload that decode_header accepts — is parsed
without any error. -/
theorem C8_blob_type_counterexample :
    decode_blob_header (encodeBlobHeader [79, 83, 77] 1) OSMHeaderBytes = .ok 1
    ∧ runFramer (be32 (encodeBlobHeader [79, 83, 77] 2).length
        ++ (encodeBlobHeader [79, 83, 77] 2 ++ [10, 0])) = ([], .ok ()) :=
  ⟨rfl, rfl⟩

/-- C8 amended: the first blob is checked against "OSMHeader" and every
following blob against "OSMData"; a blob whose stored type is not a byte
prefix of the expected type raises pbf_error (the comparison is strncmp
bounded by the stored type's length, so any prefix, including a missing or
empty type, is accepted), and a BlobHeader whose datasize is missing or
zero raises pbf_error before the type is examined. -/
theorem C8_blob_type_amended :
    ∀ (exp typ hb : List Nat) (blobs : List (List Nat)) (ds : Nat) (rest : List Nat),
      typ.length < 34359738368 → ds < 2147483648 → ¬ ds = 0 →
      (encodeBlobHeader typ ds).length ≤ max_blob_header_size →
      typeMatches exp typ = false →
      typeMatches OSMHeaderBytes typ = false →
      typeMatches OSMDataBytes typ = false →
      1 ≤ hb.length → hb.length < 2147483648 →
      decode_header hb = .ok () →
      (∀ x ∈ blobs, 1 ≤ x.length ∧ x.length ≤ max_uncompressed_blob_size) →
      decode_blob_header (encodeBlobHeader typ ds) exp
          = .error "blob does not have expected type (OSMHeader in first blob, OSMData in following blobs)"
      ∧ decode_blob_header (encodeBlobHeader typ 0) exp
          = .error "PBF format error: BlobHeader.datasize missing or zero."
      ∧ decode_blob_header (encodeBlobHeaderTypeOnly typ) exp
          = .error "PBF format error: BlobHeader.datasize missing or zero."
      ∧ runFramer (be32 (encodeBlobHeader typ ds).length ++ (encodeBlobHeader typ ds ++ rest))
          = ([], .error "blob does not have expected type (OSMHeader in first blob, OSMData in following blobs)")
      ∧ runFramer (mkHeaderBlob hb
            ++ (concatAll (blobs.map mkDataBlob)
              ++ (be32 (encodeBlobHeader typ ds).length ++ (encodeBlobHeader typ ds ++ rest))))
          = (blobs, .error "blob does not have expected type (OSMHeader in first blob, OSMData in following blobs)") := by
  intro exp typ hb blobs ds rest h1 h2 hds hbound hexp hH hD hhb1 hhb2 hdec hblobs
  refine ⟨?_, ?_, ?_, ?_, ?_⟩
  · rw [decode_enc typ ds exp h1 h2, if_neg hds, if_neg (by simp [hexp])]
  · rw [decode_enc typ 0 exp h1 (by omega), if_pos rfl]
  · exact decode_enc_type_only typ exp h1
  · unfold runFramer
    rw [parse_header_badtype typ rest ds h1 h2 hds hbound hH]
  · unfold runFramer
    rw [parse_header_ok hb _ hhb1 hhb2 hdec]
    simp only []
    rw [framerGo_blobs blobs _ [] hblobs]
    rw [framerGo_badtype typ rest ds ([] ++ blobs) h1 h2 hds hbound hD]
    simp

/-- Witness for C8: the type "X" is not a prefix of either expected type. -/
theorem C8_blob_type_witness :
    decode_blob_header (encodeBlobHeader [88] 1) OSMHeaderBytes
        = .error "blob does not have expected type (OSMHeader in first blob, OSMData in following blobs)"
    ∧ decode_blob_header (encodeBlobHeader [88] 0) OSMHeaderBytes
        = .error "PBF format error: BlobHeader.datasize missing or zero."
    ∧ decode_blob_header (encodeBlobHeaderTypeOnly [88]) OSMHeaderBytes
        = .error "PBF format error: BlobHeader.datasize missing or zero."
    ∧ runFramer (be32 (encodeBlobHeader [88] 1).length ++ (encodeBlobHeader [88] 1 ++ [5]))
        = ([], .error "blob does not have expected type (OSMHeader in first blob, OSMData in following blobs)")
    ∧ runFramer (mkHeaderBlob [10, 0]
          ++ (concatAll ([[7]].map mkDataBlob)
            ++ (be32 (encodeBlobHeader [88] 1).length ++ (encodeBlobHeader [88] 1 ++ [5]))))
        = ([[7]], .error "blob does not have expected type (OSMHeader in first blob, OSMData in following blobs)") :=
  C8_blob_type_amended OSMHeaderBytes [88] [10, 0] [[7]] 1 [5] (by decide) (by decide)
    (by decide) (by decide) (by decide) (by decide) (by decide) (by decide) (by decide)
    rfl (by decide)

/-- C10: in a stream whose OSMHeader payload decodes, when the stream ends
inside the 4-byte length prefix of the next BlobHeader (0 to 3 bytes
remain), the pbf_error of the unfinished read is caught inside
read_blob_header_size_from_file, which returns 0; the framer loop ends
normally and the consumer sees all complete blobs followed by the empty
end-of-stream sentinel, never an error. -/
theorem C10_truncated_size_clean_eof :
    ∀ (hb : List Nat) (blobs : List (List Nat)) (extra : List Nat),
      1 ≤ hb.length → hb.length < 2147483648 →
      decode_header hb = .ok () →
      (∀ x ∈ blobs, 1 ≤ x.length ∧ x.length ≤ max_uncompressed_blob_size) →
      extra.length ≤ 3 →
      runFramer (mkHeaderBlob hb ++ (concatAll (blobs.map mkDataBlob) ++ extra))
        = (blobs, .ok ()) := by
  intro hb blobs extra hhb1 hhb2 hdec hblobs hex
  unfold runFramer
  rw [parse_header_ok hb _ hhb1 hhb2 hdec]
  simp only []
  rw [framerGo_blobs blobs _ [] hblobs]
  rw [framerGo_eof extra ([] ++ blobs) hex]
  simp

/-- Witness for C10: two complete data blobs followed by three stray bytes
of a truncated length prefix end the stream cleanly. -/
theorem C10_truncated_size_clean_eof_witness :
    runFramer (mkHeaderBlob [10, 0] ++ (concatAll ([[7], [8]].map mkDataBlob) ++ [1, 2, 3]))
      = ([[7], [8]], .ok ()) :=
  C10_truncated_size_clean_eof [10, 0] [[7], [8]] [1, 2, 3] (by decide) (by decide)
    rfl (by decide) (by decide)

end Libosmium
